import Mathlib

/-!
Verification development for the slotted-page storage engine
(page format, page operations, free-space map, page-cache coordinator).

The definitions below are a shallow embedding of the C++ sources:
  src/src/page/page.cpp, src/src/page/page_view.cpp,
  src/src/common/checksum.cpp, src/src/storage/free_space_map.cpp,
  src/src/storage/disk_manager.cpp, src/src/storage/page_manager.cpp.

Machine integers are modelled as `Nat`, with explicit `% 2^w` (or a comment)
wherever the C++ fixed-width behaviour matters.  Byte buffers (`char*`) are
modelled as functions `Nat → Nat`; fallible C++ calls return `Option` or an
error code.
-/

/-! ### CRC32 primitive (src/src/common/checksum.cpp)

`POLYNOMIAL = 0x04C11DB7`, MSB-first, initial value all-ones, final inversion.
The C++ lookup table entry `lookup_table_[i]` is the value produced by
`BuildLookupTable`; we embed that per-entry computation directly
(`checksum.tableEntry`), which is exactly the loop body of
`BuildLookupTable` run for index `i`.  -/

def checksum.POLYNOMIAL : Nat := 0x04C11DB7

def checksum.INITIAL_CRC : Nat := 0xFFFFFFFF

/-- One iteration of the inner loop of `checksum::BuildLookupTable`
(`crc_value` is a `uint32_t`, hence the `% 2^32`). -/
def checksum.crcShift (v : Nat) : Nat :=
  if v.testBit 31 then ((v <<< 1) ^^^ checksum.POLYNOMIAL) % 4294967296
  else (v <<< 1) % 4294967296

/-- Entry `i` of the C++ CRC lookup table: `(i << 24)` pushed through eight
iterations of the shift-xor loop of `checksum::BuildLookupTable`. -/
def checksum.tableEntry (i : Nat) : Nat :=
  checksum.crcShift (checksum.crcShift (checksum.crcShift (checksum.crcShift
    (checksum.crcShift (checksum.crcShift (checksum.crcShift (checksum.crcShift
      ((i <<< 24) % 4294967296))))))))

/-- Loop body of `checksum::Update` for a single byte:
`crc = (crc << 8) ^ lookup_table_[((crc >> 24) ^ data[i]) & 0xFF]`. -/
def checksum.updateByte (crc b : Nat) : Nat :=
  ((crc <<< 8) % 4294967296) ^^^ checksum.tableEntry (((crc >>> 24) ^^^ b) % 256)

/-- The loop of `checksum::Update` over `n` bytes of the byte source `f`,
starting at position `start` of `f`.  (In the C++ the source is a `uint8_t*`;
here it is a byte function.)  The count argument comes first so that the
recursion reduces iteratively in the kernel. -/
def checksum.Update (f : Nat → Nat) : Nat → Nat → Nat → Nat
  | 0, _, crc => crc
  | n + 1, start, crc => checksum.Update f n (start + 1) (checksum.updateByte crc (f start))

/-- The final inversion `~crc` of `checksum::Finalize` on a `uint32_t`. -/
def checksum.Finalize (crc : Nat) : Nat := crc ^^^ 0xFFFFFFFF

/-- One-shot `checksum::Compute` over `n` bytes of `f` starting at 0. -/
def checksum.Compute (f : Nat → Nat) (n : Nat) : Nat :=
  checksum.Finalize (checksum.Update f n 0 checksum.INITIAL_CRC)

/-! ### Slot entries and the page structure (src/include/page/page.h)

`PageHeader` is 40 bytes: persisted fields at bytes 0..15 (with the checksum
at bytes 12..15), then the runtime-only fields `deleted_tuple_count_`
(bytes 16..17, then 6 bytes of alignment padding), `fragmented_bytes_`
(bytes 24..31) and `is_dirty_` (byte 32, then 7 bytes of padding).
`SlotEntry` is packed to exactly 8 bytes.

The 8192-byte buffer is modelled structurally: the header fields, a byte
function `data` for the tuple-data area, and a slot-entry function `slots`
for the slot directory (slot `n` occupies bytes `8192 - 8*(n+1) ..< 8192 - 8*n`).
`slotHigh` records how many tail slot entries have ever been materialised;
it only determines which tail bytes the serialised byte view reads from the
slot directory rather than from the data area. -/

structure SlotEntry where
  offset : Nat
  length : Nat
  flags : Nat
  np0 : Nat
  np1 : Nat
  np2 : Nat
deriving DecidableEq

def SlotEntry.zero : SlotEntry := ⟨0, 0, 0, 0, 0, 0⟩

def SLOT_VALID : Nat := 1

def SLOT_FORWARDED : Nat := 2

def PAGE_SIZE : Nat := 8192

/-- Size of the full `PageHeader` struct (40 bytes); `free_start` of a fresh
page, and the start of the checksummed data area. -/
def HEADER_SIZE : Nat := 40

def SLOT_ENTRY_SIZE : Nat := 8

def INVALID_SLOT_ID : Nat := 65535

structure Page where
  pageId : Nat
  slotId : Nat
  freeStart : Nat
  freeEnd : Nat
  slotCount : Nat
  pageType : Nat
  flags : Nat
  checksum : Nat
  deletedCount : Nat
  fragmented : Nat
  isDirty : Bool
  data : Nat → Nat
  slots : Nat → SlotEntry
  slotHigh : Nat

/-- Byte `k` (little-endian, x86) of a 16-bit field. -/
def le16 (v k : Nat) : Nat := (v >>> (8 * k)) % 256

/-- Byte `k` of the packed 8-byte `SlotEntry` struct:
`uint16 offset`, `uint16 length`, `uint8 flags`, `uint8 next_ptr[3]`. -/
def SlotEntry.byte (e : SlotEntry) (k : Nat) : Nat :=
  if k = 0 then e.offset % 256
  else if k = 1 then (e.offset >>> 8) % 256
  else if k = 2 then e.length % 256
  else if k = 3 then (e.length >>> 8) % 256
  else if k = 4 then e.flags % 256
  else if k = 5 then e.np0 % 256
  else if k = 6 then e.np1 % 256
  else e.np2 % 256

/-- The serialised page buffer: byte at offset `o` of the 8192-byte page.
Bytes 0..15 are the persisted header, bytes 16..39 the runtime fields
(alignment padding is zero), the tail holds the slot directory
(slot `n` at bytes `8192 - 8*(n+1) ..`), everything else is the data area. -/
def Page.byteAt (p : Page) (o : Nat) : Nat :=
  if o < 2 then le16 p.pageId o
  else if o < 4 then le16 p.slotId (o - 2)
  else if o < 6 then le16 p.freeStart (o - 4)
  else if o < 8 then le16 p.freeEnd (o - 6)
  else if o < 10 then le16 p.slotCount (o - 8)
  else if o = 10 then p.pageType % 256
  else if o = 11 then p.flags % 256
  else if o < 16 then (p.checksum >>> (8 * (o - 12))) % 256
  else if o < 18 then le16 p.deletedCount (o - 16)
  else if o < 24 then 0
  else if o < 32 then (p.fragmented >>> (8 * (o - 24))) % 256
  else if o = 32 then (if p.isDirty then 1 else 0)
  else if o < 40 then 0
  else if PAGE_SIZE - SLOT_ENTRY_SIZE * p.slotHigh ≤ o ∧ o < PAGE_SIZE then
    (p.slots ((PAGE_SIZE - 1 - o) / SLOT_ENTRY_SIZE)).byte
      (o - (PAGE_SIZE - SLOT_ENTRY_SIZE * ((PAGE_SIZE - 1 - o) / SLOT_ENTRY_SIZE + 1)))
  else p.data o % 256

/-- `Page::ComputeChecksum` (also `PageView::ComputeChecksum`):
CRC over bytes 0..11, then four zero bytes in place of the checksum field,
then bytes `sizeof(PageHeader) = 40 ..< 8192`.  The runtime-only header
bytes 16..39 are not covered. -/
def Page.ComputeChecksum (p : Page) : Nat :=
  checksum.Finalize
    (checksum.Update p.byteAt (PAGE_SIZE - HEADER_SIZE) HEADER_SIZE
      (checksum.Update (fun _ => 0) 4 12
        (checksum.Update p.byteAt 12 0 checksum.INITIAL_CRC)))

/-- `Page::VerifyChecksum`: the stored checksum equals the recomputed one. -/
def Page.VerifyChecksum (p : Page) : Bool := p.checksum == p.ComputeChecksum

/-- Store a checksum value in the header field. -/
def Page.withChecksum (p : Page) (c : Nat) : Page := { p with checksum := c }

/-- Recompute and store the checksum (the common
`header->checksum = ComputeChecksum()` tail of every mutating operation). -/
def Page.seal (p : Page) : Page := p.withChecksum p.ComputeChecksum

/-- `Page::CreateNew`: zeroed buffer, `free_start = sizeof(PageHeader)`,
`free_end = PAGE_SIZE`, dirty, checksum computed over the fresh buffer. -/
def Page.CreateNew : Page :=
  Page.seal
    { pageId := 0, slotId := 0, freeStart := HEADER_SIZE, freeEnd := PAGE_SIZE
      slotCount := 0, pageType := 0, flags := 0, checksum := 0
      deletedCount := 0, fragmented := 0, isDirty := true
      data := fun _ => 0, slots := fun _ => SlotEntry.zero, slotHigh := 0 }

/-- Point update of the slot-directory function. -/
def Page.setSlot (p : Page) (i : Nat) (e : SlotEntry) : Nat → SlotEntry :=
  fun j => if j = i then e else p.slots j

/-- The effect of `memcpy(dest + start, src, len)` on a byte function
(bytes are stored as `uint8_t`, hence the `% 256`). -/
def writeBytes (g : Nat → Nat) (start : Nat) (src : Nat → Nat) (len : Nat) : Nat → Nat :=
  fun o => if start ≤ o ∧ o < start + len then src (o - start) % 256 else g o

/-- Read `len` bytes starting at `start`. -/
def readBytes (g : Nat → Nat) (start len : Nat) : List Nat :=
  (List.range len).map (fun k => g (start + k))

/-- `Page::IsSlotValid`. -/
def Page.IsSlotValid (p : Page) (i : Nat) : Bool :=
  decide (i < p.slotCount) && ((p.slots i).flags &&& SLOT_VALID != 0)

/-- `Page::IsSlotForwarded`. -/
def Page.IsSlotForwarded (p : Page) (i : Nat) : Bool :=
  decide (i < p.slotCount) && ((p.slots i).flags &&& SLOT_FORWARDED != 0)

/-- `Page::GetAvailableFreeSpace`: returns 0 when `free_end < free_start`,
otherwise `free_end - free_start`. -/
def Page.GetAvailableFreeSpace (p : Page) : Nat :=
  if p.freeEnd < p.freeStart then 0 else p.freeEnd - p.freeStart

/-- Loop of `Page::FindDeletedSlot`: scan slots `i, i+1, ...` (with `n`
iterations remaining) for the first invalid one. -/
def Page.findDeletedFrom (p : Page) : Nat → Nat → Option Nat
  | 0, _ => none
  | n + 1, i => if p.IsSlotValid i then p.findDeletedFrom n (i + 1) else some i

/-- `Page::FindDeletedSlot`: lowest-numbered invalid slot below `slot_count`,
`none` in place of `INVALID_SLOT_ID`. -/
def Page.FindDeletedSlot (p : Page) : Option Nat :=
  p.findDeletedFrom p.slotCount 0

/-- `Page::AddSlot`: append a slot entry at index `slot_count` (stored at byte
offset `PAGE_SIZE - (slot_count+1)*8`), returns the pair (updated page, new
slot id), or `(p, 65535)` when `new_slot_offset ≤ free_start`.
C++ computes `new_slot_offset` in `size_t` arithmetic; the `Nat`-truncated
subtraction used here agrees with it on every state where the C++ avoids
underflow (underflow needs `slot_count ≥ 1024`, which the space guard makes
unreachable from a valid page). -/
def Page.AddSlot (p : Page) (off len : Nat) : Page × Nat :=
  let newId := p.slotCount
  let newOff := PAGE_SIZE - (newId + 1) * SLOT_ENTRY_SIZE
  if newOff ≤ p.freeStart then (p, INVALID_SLOT_ID)
  else
    ({ p with slots := p.setSlot newId ⟨off, len, SLOT_VALID, 0, 0, 0⟩
              slotCount := p.slotCount + 1
              freeEnd := newOff
              slotHigh := max p.slotHigh (newId + 1) }, newId)

/-- `Page::InsertTuple` for a byte source `src` of `size` bytes
(the C++ takes `const char*` plus a `uint16_t` size; a Lean byte function is
never null, so the null-pointer branch has no counterpart).  Returns the
updated page and the slot id, with `65535` (`INVALID_SLOT_ID`) for failure.
The counter updates `deleted_tuple_count_--` and `fragmented_bytes_ -= old`
are `uint16_t`/`size_t` subtractions in C++ and are modelled with the exact
wrap-around (they really can underflow: reusing a slot zeroed by a previous
compaction decrements the counter from 0).  `free_start += size` is a
`uint16_t` addition. -/
def Page.InsertTuple (p : Page) (src : Nat → Nat) (size : Nat) : Page × Nat :=
  if size = 0 then (p, INVALID_SLOT_ID)
  else
    match p.FindDeletedSlot with
    | some s =>
      if p.GetAvailableFreeSpace < size then (p, INVALID_SLOT_ID)
      else
        let off := p.freeStart
        let old := p.slots s
        let p1 := { p with
          slots := p.setSlot s ⟨off, size, SLOT_VALID, 0, 0, 0⟩
          deletedCount := (p.deletedCount + 65535) % 65536
          fragmented := (p.fragmented + (18446744073709551616 - old.length % 18446744073709551616)) %
            18446744073709551616
          data := writeBytes p.data off src size
          freeStart := (p.freeStart + size) % 65536 }
        (p1.seal, s)
    | none =>
      if p.GetAvailableFreeSpace < size + SLOT_ENTRY_SIZE then (p, INVALID_SLOT_ID)
      else
        let off := p.freeStart
        let r := p.AddSlot off size
        if r.2 = INVALID_SLOT_ID then (p, INVALID_SLOT_ID)
        else
          let p1 := { r.1 with
            data := writeBytes r.1.data off src size
            freeStart := (r.1.freeStart + size) % 65536 }
          (p1.seal, r.2)

/-- `Page::DeleteTuple`: clear the VALID bit, bump the runtime counters
(`uint16_t`/`size_t` additions, modelled with their exact wrap-around), mark
dirty, reseal.  Error codes as in the source (`-1` out of range, `-2` already
deleted, `0` success). -/
def Page.DeleteTuple (p : Page) (s : Nat) : Page × Int :=
  if p.slotCount ≤ s then (p, -1)
  else
    let e := p.slots s
    if e.flags &&& SLOT_VALID = 0 then (p, -2)
    else
      let p1 := { p with
        slots := p.setSlot s { e with flags := e.flags &&& 254 }
        deletedCount := (p.deletedCount + 1) % 65536
        fragmented := (p.fragmented + e.length) % 18446744073709551616
        isDirty := true }
      (p1.seal, 0)

/-- `Page::UpdateTupleInPlace`.  Error codes follow the source; the null-data
branch (`-2`) has no counterpart for a byte function. -/
def Page.UpdateTupleInPlace (p : Page) (s : Nat) (src : Nat → Nat) (size : Nat) :
    Page × Int :=
  if size = 0 then (p, -3)
  else if p.slotCount ≤ s then (p, -4)
  else
    let e := p.slots s
    if e.flags &&& SLOT_VALID = 0 then (p, -6)
    else if e.flags &&& SLOT_FORWARDED ≠ 0 then (p, -7)
    else if e.length < size then (p, -8)
    else
      let p1 := { p with
        data := writeBytes p.data e.offset src size
        slots := p.setSlot s { e with length := size }
        isDirty := true }
      (p1.seal, 0)

/-- `Page::MarkSlotForwarded` (including the embedded
`Page::SetForwardingPointer` encoding: low byte of the target page id, high
byte of the target page id, target slot id). -/
def Page.MarkSlotForwarded (p : Page) (s target tslot : Nat) : Page × Int :=
  if p.slotCount ≤ s then (p, -2)
  else
    let e := p.slots s
    if e.flags &&& SLOT_VALID = 0 then (p, -4)
    else
      let p1 := { p with
        slots := p.setSlot s
          { e with length := 0
                   flags := e.flags ||| SLOT_FORWARDED
                   np0 := target % 256
                   np1 := (target >>> 8) % 256
                   np2 := tslot % 256 }
        fragmented := (p.fragmented + e.length) % 18446744073709551616
        isDirty := true }
      (p1.seal, 0)

/-- `Page::GetForwardingPointer`: decode the 24-bit pointer. -/
def Page.GetForwardingPointer (p : Page) (s : Nat) : Nat × Nat :=
  if p.slotCount ≤ s then (0, 0)
  else ((p.slots s).np0 + 256 * (p.slots s).np1, (p.slots s).np2)

/-- `Page::ShouldCompact`.  `used_space = free_start - sizeof(PageHeader)` and
`available = free_end - free_start` are `size_t` subtractions in C++, modelled
with `Nat` truncated subtraction (they agree on every state with
`free_start ≥ 40` and `free_end ≥ free_start`; claims about this function
carry those bounds as hypotheses). -/
def Page.ShouldCompact (p : Page) : Bool :=
  if p.deletedCount = 0 then false
  else
    let used := p.freeStart - HEADER_SIZE
    if 0 < used ∧ 50 ≤ p.fragmented * 100 / used then true
    else if p.slotCount ≤ 2 * p.deletedCount then true
    else
      let avail := p.freeEnd - p.freeStart
      if avail < 100 ∧ 100 ≤ avail + p.fragmented then true
      else false

/-- Ascending list of the valid slot ids of `p` (the enumeration loop of
`Page::CompactPage`). -/
def Page.validSlots (p : Page) : List Nat :=
  (List.range p.slotCount).filter (fun i => (p.slots i).flags &&& SLOT_VALID ≠ 0)

/-- Data-copy loop of `Page::CompactPage`: copy each valid tuple's bytes (read
from the original data area, as the C++ stages them through a scratch buffer)
densely to offsets `40 + ofs`, advancing `ofs` by each length. -/
def Page.compactCopy (p : Page) : List Nat → Nat → (Nat → Nat) → Nat → Nat
  | [], _, acc => acc
  | i :: rest, ofs, acc =>
    p.compactCopy rest (ofs + (p.slots i).length)
      (writeBytes acc (HEADER_SIZE + ofs) (fun k => p.data ((p.slots i).offset + k))
        (p.slots i).length)

/-- New slot offsets assigned by `Page::CompactPage`: slot `i` (in ascending
valid order) gets offset `40 +` the summed lengths of the earlier valid slots. -/
def Page.compactAssign (p : Page) : List Nat → Nat → List (Nat × Nat)
  | [], _ => []
  | i :: rest, ofs => (i, HEADER_SIZE + ofs) :: p.compactAssign rest (ofs + (p.slots i).length)

/-- Sum of the lengths of the listed slots. -/
def Page.sumLen (p : Page) (l : List Nat) : Nat :=
  (l.map (fun i => (p.slots i).length)).sum

/-- Slot directory after `Page::CompactPage`: every invalid slot below
`slot_count` is fully zeroed, every valid slot keeps its id, flags and
forwarding bytes but gets its new offset. -/
def Page.compactSlots (p : Page) : Nat → SlotEntry :=
  fun j =>
    match (p.compactAssign p.validSlots 0).lookup j with
    | some o => { p.slots j with offset := o }
    | none => if j < p.slotCount then SlotEntry.zero else p.slots j

/-- `Page::CompactPage`.  No-op when nothing is deleted; the all-deleted case
resets `free_start` and `slot_count` (but not `free_end`); the general case
packs the valid tuples densely after the header, preserving slot ids. -/
def Page.CompactPage (p : Page) : Page :=
  if p.deletedCount = 0 then p
  else if p.slotCount = p.deletedCount then
    Page.seal { p with freeStart := HEADER_SIZE, slotCount := 0
                       deletedCount := 0, fragmented := 0 }
  else
    let vs := p.validSlots
    let p1 := { p with
      data := p.compactCopy vs 0 p.data
      slots := p.compactSlots
      freeStart := (HEADER_SIZE + p.sumLen vs) % 65536
      deletedCount := 0
      fragmented := 0 }
    p1.seal

/-- Loop of `Page::FollowForwardingChain`: `fuel` is the number of remaining
iterations (the C++ runs `hop = 0 .. max_hops`, i.e. `max_hops + 1`
iterations, and returns the invalid tuple id when `hop ≥ max_hops` would be
exceeded by another hop). -/
def Page.chainGo (p : Page) : Nat → List (Nat × Nat) → Nat × Nat → Nat × Nat
  | 0, _, _ => (0, 0)
  | fuel + 1, visited, cur =>
    if visited.contains cur then (0, 0)
    else if cur.1 ≠ p.pageId then cur
    else if p.slotCount ≤ cur.2 then (0, 0)
    else
      let e := p.slots cur.2
      if e.flags &&& SLOT_VALID = 0 then (0, 0)
      else if e.flags &&& SLOT_FORWARDED = 0 then cur
      else if fuel = 0 then (0, 0)
      else p.chainGo fuel (cur :: visited) (p.GetForwardingPointer cur.2)

/-- `Page::FollowForwardingChain` with `max_hops` hops. -/
def Page.FollowForwardingChain (p : Page) (slot maxHops : Nat) : Nat × Nat :=
  if p.slotCount = 0 ∨ p.slotCount ≤ slot then (0, 0)
  else p.chainGo (maxHops + 1) [] (p.pageId, slot)

/-! ### Free-space map (src/src/storage/free_space_map.cpp)

Only the in-memory state is modelled (the file round-trip is outside the
claims): the dense category vector `cats` with its size, the ordered set of
allocated page ids (a `std::set<page_id_t>`, which iterates in ascending
order, modelled as a sorted list), the page-count watermark and the dirty
flag. -/

def FreeSpaceMap.MAX_CATEGORY : Nat := 255

/-- `FreeSpaceMap::BytesToCategory`: clamp to `PAGE_SIZE`, then
`(available_bytes * 255) / 8192` (the C++ uses a 64-bit intermediate, which
never overflows for the clamped input, so plain `Nat` arithmetic agrees). -/
def FreeSpaceMap.BytesToCategory (b : Nat) : Nat :=
  (min b PAGE_SIZE) * FreeSpaceMap.MAX_CATEGORY / PAGE_SIZE

/-- `FreeSpaceMap::CategoryToBytes`: `(category * 8192) / 255`. -/
def FreeSpaceMap.CategoryToBytes (c : Nat) : Nat :=
  c * PAGE_SIZE / FreeSpaceMap.MAX_CATEGORY

structure FreeSpaceMap where
  cats : Nat → Nat
  size : Nat
  alloc : List Nat
  pageCount : Nat
  isDirty : Bool

def FreeSpaceMap.empty : FreeSpaceMap :=
  { cats := fun _ => 0, size := 0, alloc := [], pageCount := 0, isDirty := false }

/-- Ascending-order insertion into the allocated-page set
(models `std::set<page_id_t>::insert`). -/
def sortedInsert (pid : Nat) : List Nat → List Nat
  | [] => [pid]
  | x :: xs =>
    if pid < x then pid :: x :: xs
    else if pid = x then x :: xs
    else x :: sortedInsert pid xs

/-- `FreeSpaceMap::EnsureCapacity`: grow the dense vector to cover `pid`,
doubling with headroom but falling back to an exact fit above the cap
`FSM_CATEGORIES_PER_PAGE * 100 = 818400`. -/
def FreeSpaceMap.ensureCapacity (m : FreeSpaceMap) (pid : Nat) : FreeSpaceMap :=
  if pid < m.size then m
  else
    let ns := max (pid + 1) (2 * m.size)
    { m with size := if 818400 < ns then pid + 1 else ns }

/-- `FreeSpaceMap::UpdatePageFreeSpace` (the mutex is irrelevant to the
sequential model). -/
def FreeSpaceMap.UpdatePageFreeSpace (m : FreeSpaceMap) (pid avail : Nat) : FreeSpaceMap :=
  let m1 := m.ensureCapacity pid
  if pid < m1.size then
    { m1 with cats := fun j => if j = pid then FreeSpaceMap.BytesToCategory avail else m1.cats j
              alloc := sortedInsert pid m1.alloc
              isDirty := true
              pageCount := if m1.pageCount ≤ pid then pid + 1 else m1.pageCount }
  else m1

/-- Scan loop of `FreeSpaceMap::FindPageWithSpace` over the allocated set. -/
def FreeSpaceMap.findGo (m : FreeSpaceMap) (minCat : Nat) : List Nat → Nat
  | [] => 0
  | pid :: rest =>
    if pid < m.size then
      if minCat < m.cats pid then pid
      else if m.cats pid = minCat ∧ 0 < m.cats pid then pid
      else m.findGo minCat rest
    else m.findGo minCat rest

/-- `FreeSpaceMap::FindPageWithSpace`: first allocated page whose category
exceeds the required category (or equals it when nonzero); 0
(`INVALID_PAGE_ID`) when none qualifies. -/
def FreeSpaceMap.FindPageWithSpace (m : FreeSpaceMap) (required : Nat) : Nat :=
  m.findGo (FreeSpaceMap.BytesToCategory required) m.alloc

/-- `FreeSpaceMap::GetCategory`. -/
def FreeSpaceMap.GetCategory (m : FreeSpaceMap) (pid : Nat) : Nat :=
  if m.alloc.contains pid then (if pid < m.size then m.cats pid else 0) else 0

/-! ### Block device (src/src/storage/disk_manager.cpp)

The file is modelled as a map from page id to the page as persisted by
`WritePage` (runtime fields zeroed, checksum recomputed), plus the
`next_page_id_` counter.  I/O never fails in the model; a read of a page that
was never written fails (the C++ short-read throw). -/

structure DiskManager where
  store : Nat → Option Page
  next : Nat

/-- A fresh database file: no pages, `next_page_id = 1`. -/
def DiskManager.fresh : DiskManager := { store := fun _ => none, next := 1 }

/-- `DiskManager::AllocatePage`: return the current `next_page_id_` and
increment it. -/
def DiskManager.AllocatePage (d : DiskManager) : DiskManager × Nat :=
  ({ d with next := d.next + 1 }, d.next)

/-- `DiskManager::WritePage`: zero the runtime fields in the buffer, recompute
the checksum over the zeroed buffer, persist. -/
def DiskManager.WritePage (d : DiskManager) (pid : Nat) (p : Page) : DiskManager :=
  let q := Page.seal { p with deletedCount := 0, fragmented := 0, isDirty := false }
  { d with store := fun j => if j = pid then some q else d.store j }

/-- Runtime-field reinitialisation performed by `DiskManager::ReadPage` after
the raw read: zero the runtime counters and the dirty flag, then rescan the
slot directory recounting deleted slots and their summed lengths. -/
def Page.readReset (q : Page) : Page :=
  { q with
    deletedCount :=
      ((List.range q.slotCount).filter (fun i => (q.slots i).flags &&& SLOT_VALID = 0)).length
    fragmented :=
      (((List.range q.slotCount).filter (fun i => (q.slots i).flags &&& SLOT_VALID = 0)).map
        (fun i => (q.slots i).length)).sum
    isDirty := false }

/-- `DiskManager::ReadPage`: read the stored page, reinitialise the runtime
fields, verify the checksum; `none` models the thrown exceptions (short read,
checksum mismatch). -/
def DiskManager.ReadPage (d : DiskManager) (pid : Nat) : Option Page :=
  match d.store pid with
  | none => none
  | some q =>
    let r := q.readReset
    if r.VerifyChecksum then some r else none

/-! ### Coordinator / page cache (src/src/storage/page_manager.cpp)

The cache (`std::unordered_map<page_id_t, std::unique_ptr<Page>>`) is an
association list; its iteration order is unspecified in C++, the list order
is the model's concretisation.  `MAX_CACHE_SIZE = 100`. -/

def MAX_CACHE_SIZE : Nat := 100

structure PageManager where
  cache : List (Nat × Page)
  disk : DiskManager
  fsm : FreeSpaceMap

def cacheLookup : List (Nat × Page) → Nat → Option Page
  | [], _ => none
  | (k, p) :: rest, pid => if k = pid then some p else cacheLookup rest pid

/-- `page_cache_[page_id] = page`: replace the entry if present, else add. -/
def cacheStore : List (Nat × Page) → Nat → Page → List (Nat × Page)
  | [], pid, p => [(pid, p)]
  | (k, q) :: rest, pid, p =>
    if k = pid then (pid, p) :: rest else (k, q) :: cacheStore rest pid p

def cacheErase : List (Nat × Page) → Nat → List (Nat × Page)
  | [], _ => []
  | (k, q) :: rest, pid => if k = pid then rest else (k, q) :: cacheErase rest pid

/-- `PageManager::UpdateFSM`: push `free_end - free_start` (a `uint16_t`
subtraction; the states the proofs use satisfy `free_start ≤ free_end`). -/
def PageManager.UpdateFSM (S : PageManager) (pid : Nat) (p : Page) : PageManager :=
  { S with fsm := S.fsm.UpdatePageFreeSpace pid (p.freeEnd - p.freeStart) }

/-- `PageManager::FlushPage` on a cached dirty page: store the recomputed
checksum in the cached buffer, then `WritePage` — which zeroes the runtime
fields and recomputes the checksum in that same cached buffer before
persisting it. -/
def PageManager.FlushPage (S : PageManager) (pid : Nat) : PageManager :=
  match cacheLookup S.cache pid with
  | none => S
  | some p =>
    if p.isDirty then
      let q := Page.seal { p.seal with deletedCount := 0, fragmented := 0, isDirty := false }
      { S with disk := { S.disk with store := fun j => if j = pid then some q else S.disk.store j }
               cache := cacheStore S.cache pid q }
    else S

/-- First clean (non-dirty) cache entry, in iteration order. -/
def findClean : List (Nat × Page) → Option Nat
  | [] => none
  | (k, p) :: rest => if p.isDirty then findClean rest else some k

/-- `PageManager::EvictPageIfNeeded`: nothing below `MAX_CACHE_SIZE`; else
evict the first clean page, else flush and evict the first page. -/
def PageManager.EvictPageIfNeeded (S : PageManager) : PageManager :=
  if S.cache.length < MAX_CACHE_SIZE then S
  else
    match findClean S.cache with
    | some pid => { S with cache := cacheErase S.cache pid }
    | none =>
      match S.cache with
      | [] => S
      | (pid, _) :: _ =>
        let S1 := S.FlushPage pid
        { S1 with cache := cacheErase S1.cache pid }

/-- `PageManager::GetPage`: cache hit, or read from disk (checksum-verified),
evict if needed, and cache the loaded page. -/
def PageManager.GetPage (S : PageManager) (pid : Nat) : PageManager × Option Page :=
  match cacheLookup S.cache pid with
  | some p => (S, some p)
  | none =>
    match S.disk.ReadPage pid with
    | none => (S, none)
    | some pg =>
      let S1 := S.EvictPageIfNeeded
      ({ S1 with cache := cacheStore S1.cache pid pg }, some pg)

/-- `PageManager::AllocateNewPage`: allocate an id from the block device,
create a fresh page, `SetPageId` (a `uint16_t` field, hence `% 65536` — the
checksum computed by `CreateNew` is left as is), evict if needed, cache it,
and push its free space to the free-space map. -/
def PageManager.AllocateNewPage (S : PageManager) : PageManager × Nat :=
  let r := S.disk.AllocatePage
  let pg := { Page.CreateNew with pageId := r.2 % 65536 }
  let S1 := PageManager.EvictPageIfNeeded { S with disk := r.1 }
  let S2 := { S1 with cache := cacheStore S1.cache r.2 pg }
  (S2.UpdateFSM r.2 pg, r.2)

/-- One iteration of the three-attempt loop of `PageManager::InsertTuple`,
with `fuel` attempts remaining.  Mirrors the source: find a page via the
free-space map (allocating a new one when it has none), fetch it, try the
page-level insert; on failure optionally compact and retry once on the same
page, else mark the page full in the map and move to the next attempt. -/
def PageManager.insertGo (src : Nat → Nat) (size : Nat) :
    Nat → PageManager → PageManager × (Nat × Nat)
  | 0, S => (S, (0, INVALID_SLOT_ID))
  | fuel + 1, S =>
    let pid0 := S.fsm.FindPageWithSpace (size + SLOT_ENTRY_SIZE)
    let a := if pid0 = 0 then S.AllocateNewPage else (S, pid0)
    match a.1.GetPage a.2 with
    | (S2, none) => (S2, (0, INVALID_SLOT_ID))
    | (S2, some pg) =>
      let r := pg.InsertTuple src size
      if r.2 ≠ INVALID_SLOT_ID then
        let S3 := { S2 with cache := cacheStore S2.cache a.2 r.1 }
        (S3.UpdateFSM a.2 r.1, (a.2, r.2))
      else
        if pg.ShouldCompact then
          let pgc := pg.CompactPage
          let r2 := pgc.InsertTuple src size
          if r2.2 ≠ INVALID_SLOT_ID then
            let S3 := { S2 with cache := cacheStore S2.cache a.2 r2.1 }
            (S3.UpdateFSM a.2 r2.1, (a.2, r2.2))
          else
            let S3 := { S2 with cache := cacheStore S2.cache a.2 pgc }
            let S4 := { S3 with fsm := S3.fsm.UpdatePageFreeSpace a.2 0 }
            PageManager.insertGo src size fuel S4
        else
          let S3 := { S2 with fsm := S2.fsm.UpdatePageFreeSpace a.2 0 }
          PageManager.insertGo src size fuel S3

/-- `PageManager::InsertTuple`: validate the size, then up to three attempts.
Returns the new state and the tuple id, `(0, 65535)` on failure. -/
def PageManager.InsertTuple (S : PageManager) (src : Nat → Nat) (size : Nat) :
    PageManager × (Nat × Nat) :=
  if size = 0 then (S, (0, INVALID_SLOT_ID))
  else if PAGE_SIZE - HEADER_SIZE - SLOT_ENTRY_SIZE < size then (S, (0, INVALID_SLOT_ID))
  else PageManager.insertGo src size 3 S

/-- `PageManager::FollowForwardingChainFull`: validate the tuple id, fetch its
page, run the page-local walker with `max_hops = 10` and return its result
as is (any validation failure yields the invalid tuple id `(0, 0)`). -/
def PageManager.FollowForwardingChainFull (S : PageManager) (tid : Nat × Nat) :
    PageManager × (Nat × Nat) :=
  if tid.1 = 0 ∨ tid.2 = INVALID_SLOT_ID then (S, (0, 0))
  else
    match S.GetPage tid.1 with
    | (S1, none) => (S1, (0, 0))
    | (S1, some p) =>
      if p.slotCount ≤ tid.2 then (S1, (0, 0))
      else (S1, p.FollowForwardingChain tid.2 10)

/-- `PageManager::GetTupleFromSlot`: validate the slot, check the caller's
capacity, `memcpy` the tuple bytes into the buffer and, when there is room,
write a terminating zero byte one past them.  Returns the error code and the
updated caller buffer. -/
def PageManager.GetTupleFromSlot (p : Page) (slot : Nat) (buf : Nat → Nat)
    (bufSize : Nat) : Int × (Nat → Nat) :=
  if ¬ p.IsSlotValid slot then (-2, buf)
  else
    let e := p.slots slot
    if bufSize < e.length then (-3, buf)
    else
      let buf1 := writeBytes buf 0 (fun k => p.data (e.offset + k)) e.length
      let buf2 := if e.length < bufSize then
          (fun i => if i = e.length then 0 else buf1 i) else buf1
      (0, buf2)

/-- `PageManager::GetTuple`: resolve the forwarding chain, fetch the resolved
page, copy the bytes out.  Returns the updated state, the error code and the
caller's buffer. -/
def PageManager.GetTuple (S : PageManager) (tid : Nat × Nat) (buf : Nat → Nat)
    (bufSize : Nat) : PageManager × (Int × (Nat → Nat)) :=
  if bufSize = 0 then (S, (-2, buf))
  else
    let a := S.FollowForwardingChainFull tid
    if a.2 = (0, 0) then (a.1, (-3, buf))
    else
      match a.1.GetPage a.2.1 with
      | (S2, none) => (S2, (-4, buf))
      | (S2, some p) => (S2, PageManager.GetTupleFromSlot p a.2.2 buf bufSize)

/-! ### Small arithmetic facts about the free-space quantisation -/

lemma bytesToCategory_le (a b : Nat) (h : a ≤ b) :
    FreeSpaceMap.BytesToCategory a ≤ FreeSpaceMap.BytesToCategory b := by
  unfold FreeSpaceMap.BytesToCategory
  exact Nat.div_le_div_right (Nat.mul_le_mul_right _ (min_le_min_right _ h))

lemma categoryToBytes_roundtrip (b : Nat) (hb : b ≤ PAGE_SIZE) :
    FreeSpaceMap.CategoryToBytes (FreeSpaceMap.BytesToCategory b) ≤ b ∧
      b - FreeSpaceMap.CategoryToBytes (FreeSpaceMap.BytesToCategory b) ≤ 33 := by
  simp only [FreeSpaceMap.CategoryToBytes, FreeSpaceMap.BytesToCategory,
    FreeSpaceMap.MAX_CATEGORY, PAGE_SIZE] at hb ⊢
  rw [min_eq_left hb]
  omega

/-- C8.  The free-space-map quantisation: `BytesToCategory 8192 = 255`,
`BytesToCategory 0 = 0`, `BytesToCategory` is monotone and clamps every
input above 8192 to 255, and for `b ≤ 8192` the round-trip
`CategoryToBytes (BytesToCategory b)` never undershoots `b` by more than 33
(and never overshoots). -/
theorem claim_C8 :
    FreeSpaceMap.BytesToCategory PAGE_SIZE = 255 ∧
    FreeSpaceMap.BytesToCategory 0 = 0 ∧
    (∀ a b, a ≤ b → FreeSpaceMap.BytesToCategory a ≤ FreeSpaceMap.BytesToCategory b) ∧
    (∀ b, PAGE_SIZE ≤ b → FreeSpaceMap.BytesToCategory b = 255) ∧
    (∀ b, b ≤ PAGE_SIZE →
      FreeSpaceMap.CategoryToBytes (FreeSpaceMap.BytesToCategory b) ≤ b ∧
      b - FreeSpaceMap.CategoryToBytes (FreeSpaceMap.BytesToCategory b) ≤ 33) := by
  refine ⟨by decide, by decide, bytesToCategory_le, ?_, categoryToBytes_roundtrip⟩
  intro b hb
  unfold FreeSpaceMap.BytesToCategory
  rw [min_eq_right hb]
  rfl

/-- Witness for C8: the theorem applied at concrete inputs. -/
theorem claim_C8_witness :
    FreeSpaceMap.BytesToCategory 100 ≤ FreeSpaceMap.BytesToCategory 200 ∧
    FreeSpaceMap.BytesToCategory 9000 = 255 ∧
    1000 - FreeSpaceMap.CategoryToBytes (FreeSpaceMap.BytesToCategory 1000) ≤ 33 :=
  ⟨claim_C8.2.2.1 100 200 (by omega), claim_C8.2.2.2.1 9000 (by norm_num [PAGE_SIZE]),
   (claim_C8.2.2.2.2 1000 (by norm_num [PAGE_SIZE])).2⟩

/-! ### ShouldCompact (C5) -/

/-- The compaction predicate exactly as the claim words it: deleted tuples
exist and (fragmentation is at least 50% of the used data space, or deleted
slots are at least 50% of the slot count, or the contiguous free space is
below 100 bytes while `fragmented_bytes` is at least 100). -/
def ShouldCompactClaim (p : Page) : Prop :=
  0 < p.deletedCount ∧
    (p.freeStart - HEADER_SIZE ≤ 2 * p.fragmented ∨
     p.slotCount ≤ 2 * p.deletedCount ∨
     (p.freeEnd - p.freeStart < 100 ∧ 100 ≤ p.fragmented))

instance (p : Page) : Decidable (ShouldCompactClaim p) := by
  unfold ShouldCompactClaim; infer_instance

/-- Page used to refute C5: three inserts (sizes 50, 4000, 4028) and one
delete, giving `free_start = 8118`, `free_end = 8168`, one deleted slot out
of three, 50 fragmented bytes and 50 contiguous free bytes. -/
def pageC5 : Page :=
  ((((Page.CreateNew.InsertTuple (fun _ => 1) 50).1.InsertTuple (fun _ => 2) 4000).1.InsertTuple
    (fun _ => 3) 4028).1.DeleteTuple 0).1

/-- Counterexample to C5: on `pageC5` the code's `ShouldCompact` returns true
(50 contiguous bytes < 100 and 50 + 50 fragmented would reach 100), yet none
of the claim's three conditions holds — in particular its third condition
fails because `fragmented_bytes = 50 < 100`. -/
theorem claim_C5_counterexample :
    pageC5.ShouldCompact = true ∧ ¬ ShouldCompactClaim pageC5 := by
  constructor
  · decide
  · decide

/-- C5 (amended).  `ShouldCompact` returns true iff `deleted_tuple_count > 0`
and one of: the used data space is positive and fragmentation is at least
50% of it, or deleted slots are at least 50% of the slot count, or the
contiguous free space is below 100 bytes while it plus `fragmented_bytes`
would reach 100 (i.e. compaction would free at least 100 contiguous bytes).
The bounds `40 ≤ free_start ≤ free_end` delimit the states on which the
`Nat` subtractions below agree with the C++ `size_t` arithmetic. -/
theorem claim_C5_amended (p : Page) (h1 : HEADER_SIZE ≤ p.freeStart)
    (h2 : p.freeStart ≤ p.freeEnd) :
    p.ShouldCompact = true ↔
      (0 < p.deletedCount ∧
        ((0 < p.freeStart - HEADER_SIZE ∧
            p.freeStart - HEADER_SIZE ≤ 2 * p.fragmented) ∨
         p.slotCount ≤ 2 * p.deletedCount ∨
         (p.freeEnd - p.freeStart < 100 ∧
            100 ≤ (p.freeEnd - p.freeStart) + p.fragmented))) := by
  have hconv : ∀ u f : Nat, 0 < u → (50 ≤ f * 100 / u ↔ u ≤ 2 * f) := by
    intro u f hu
    rw [Nat.le_div_iff_mul_le hu]
    omega
  by_cases hd : p.deletedCount = 0
  · have hL : p.ShouldCompact = false := by
      simp only [Page.ShouldCompact]
      rw [if_pos hd]
    rw [hL]
    simp only [Bool.false_eq_true, false_iff]
    intro h
    omega
  · by_cases hc1 : 0 < p.freeStart - HEADER_SIZE ∧
        50 ≤ p.fragmented * 100 / (p.freeStart - HEADER_SIZE)
    · have hL : p.ShouldCompact = true := by
        simp only [Page.ShouldCompact]
        rw [if_neg hd, if_pos hc1]
      rw [hL]
      simp only [true_iff]
      exact ⟨Nat.pos_of_ne_zero hd, Or.inl ⟨hc1.1, (hconv _ _ hc1.1).mp hc1.2⟩⟩
    · by_cases hc2 : p.slotCount ≤ 2 * p.deletedCount
      · have hL : p.ShouldCompact = true := by
          simp only [Page.ShouldCompact]
          rw [if_neg hd, if_neg hc1, if_pos hc2]
        rw [hL]
        simp only [true_iff]
        exact ⟨Nat.pos_of_ne_zero hd, Or.inr (Or.inl hc2)⟩
      · by_cases hc3 : p.freeEnd - p.freeStart < 100 ∧
            100 ≤ (p.freeEnd - p.freeStart) + p.fragmented
        · have hL : p.ShouldCompact = true := by
            simp only [Page.ShouldCompact]
            rw [if_neg hd, if_neg hc1, if_neg hc2, if_pos hc3]
          rw [hL]
          simp only [true_iff]
          exact ⟨Nat.pos_of_ne_zero hd, Or.inr (Or.inr hc3)⟩
        · have hL : p.ShouldCompact = false := by
            simp only [Page.ShouldCompact]
            rw [if_neg hd, if_neg hc1, if_neg hc2, if_neg hc3]
          rw [hL]
          simp only [Bool.false_eq_true, false_iff]
          rintro ⟨h0, h | h | h⟩
          · exact hc1 ⟨h.1, (hconv _ _ h.1).mpr h.2⟩
          · exact hc2 h
          · exact hc3 h

/-- Witness for the amended C5 at a concrete page. -/
theorem claim_C5_witness :
    pageC5.ShouldCompact = true ↔
      (0 < pageC5.deletedCount ∧
        ((0 < pageC5.freeStart - HEADER_SIZE ∧
            pageC5.freeStart - HEADER_SIZE ≤ 2 * pageC5.fragmented) ∨
         pageC5.slotCount ≤ 2 * pageC5.deletedCount ∨
         (pageC5.freeEnd - pageC5.freeStart < 100 ∧
            100 ≤ (pageC5.freeEnd - pageC5.freeStart) + pageC5.fragmented))) :=
  claim_C5_amended pageC5 (by decide) (by decide)

/-! ### GetTuple terminator behaviour (C10) -/

/-- C10.  For a successful coordinator `GetTuple` resolving to a slot of
stored length `L`: when the caller's capacity strictly exceeds `L`, the byte
at index `L` of the caller's buffer is set to zero (one past the copied
data); when the capacity equals `L` exactly, that byte is left untouched. -/
theorem claim_C10 (S S1 S2 : PageManager) (tid ft : Nat × Nat) (p : Page)
    (buf : Nat → Nat) (bufSize : Nat)
    (hch : S.FollowForwardingChainFull tid = (S1, ft)) (hft : ft ≠ (0, 0))
    (hget : S1.GetPage ft.1 = (S2, some p)) (hbs : bufSize ≠ 0)
    (hv : p.IsSlotValid ft.2 = true) (hlen : (p.slots ft.2).length ≤ bufSize) :
    (S.GetTuple tid buf bufSize).2.1 = 0 ∧
    ((p.slots ft.2).length < bufSize →
      (S.GetTuple tid buf bufSize).2.2 (p.slots ft.2).length = 0) ∧
    (bufSize = (p.slots ft.2).length →
      (S.GetTuple tid buf bufSize).2.2 (p.slots ft.2).length =
        buf (p.slots ft.2).length) := by
  have hgt : S.GetTuple tid buf bufSize =
      (S2, PageManager.GetTupleFromSlot p ft.2 buf bufSize) := by
    unfold PageManager.GetTuple
    rw [if_neg hbs, hch]
    simp only
    rw [if_neg hft, hget]
  rw [hgt]
  unfold PageManager.GetTupleFromSlot
  rw [if_neg (by simp [hv]), if_neg (by omega)]
  refine ⟨rfl, ?_, ?_⟩
  · intro hlt
    simp [hlt]
  · intro heq
    have : ¬ (p.slots ft.2).length < bufSize := by omega
    simp only [if_neg this]
    unfold writeBytes
    rw [if_neg (by omega)]

/-- Concrete page and coordinator state used by the C10 witness: one cached
page holding a single 3-byte tuple. -/
def pageC10 : Page :=
  ({ Page.CreateNew with pageId := 1 }.InsertTuple (fun i => 10 + i) 3).1

def stateC10 : PageManager :=
  { cache := [(1, pageC10)], disk := DiskManager.fresh, fsm := FreeSpaceMap.empty }

/-- Witness for C10 at a concrete state: capacity 5 against a 3-byte tuple. -/
theorem claim_C10_witness :
    (stateC10.GetTuple (1, 0) (fun _ => 99) 5).2.1 = 0 ∧
    ((pageC10.slots 0).length < 5 →
      (stateC10.GetTuple (1, 0) (fun _ => 99) 5).2.2 (pageC10.slots 0).length = 0) ∧
    (5 = (pageC10.slots 0).length →
      (stateC10.GetTuple (1, 0) (fun _ => 99) 5).2.2 (pageC10.slots 0).length =
        (fun _ => 99 : Nat → Nat) (pageC10.slots 0).length) :=
  claim_C10 stateC10 stateC10 stateC10 (1, 0) (1, 0) pageC10 (fun _ => 99) 5
    rfl (by decide) rfl (by decide) (by decide) (by decide)

/-! ### Coordinator-level forwarding-chain walk (C6) -/

/-- Page 1: its slot 0 is forwarded to (2, 0). -/
def pageC6a : Page :=
  (({ Page.CreateNew with pageId := 1 }.InsertTuple (fun _ => 65) 1).1.MarkSlotForwarded 0 2 0).1

/-- Page 2: its slot 0 is forwarded onward to (3, 0). -/
def pageC6b : Page :=
  (({ Page.CreateNew with pageId := 2 }.InsertTuple (fun _ => 66) 1).1.MarkSlotForwarded 0 3 0).1

/-- Page 3: its slot 0 holds the chain's final tuple. -/
def pageC6c : Page :=
  ({ Page.CreateNew with pageId := 3 }.InsertTuple (fun _ => 67) 1).1

def stateC6 : PageManager :=
  { cache := [(1, pageC6a), (2, pageC6b), (3, pageC6c)]
    disk := DiskManager.fresh, fsm := FreeSpaceMap.empty }

/-- Counterexample to C6: the chain (1,0) → (2,0) → (3,0) crosses pages, and
the coordinator-level walker stops at the first cross-page hop: it returns
(2,0) — a slot that is itself forwarded — rather than continuing on page 2
to the chain's final non-forwarded destination (3,0), and rather than the
invalid tuple id. -/
theorem claim_C6_counterexample :
    (stateC6.FollowForwardingChainFull (1, 0)).2 = (2, 0) ∧
    pageC6b.IsSlotForwarded 0 = true ∧
    pageC6b.GetForwardingPointer 0 = (3, 0) ∧
    pageC6c.IsSlotForwarded 0 = false ∧
    pageC6c.IsSlotValid 0 = true ∧
    (2, 0) ≠ ((3 : Nat), (0 : Nat)) ∧ (2, 0) ≠ ((0 : Nat), (0 : Nat)) := by
  refine ⟨by decide, by decide, by decide, by decide, by decide, by decide, by decide⟩

/-- Two iterations of the page-local chain loop: a valid forwarded slot whose
24-bit pointer names a different page makes the walker return that (page,
slot) pair unchanged on the next iteration. -/
lemma chainGo_cross (p : Page) (s q t fuel : Nat) (visited : List (Nat × Nat))
    (hnv : (p.pageId, s) ∉ visited)
    (hnv2 : (q, t) ∉ visited)
    (hs : s < p.slotCount)
    (hv : (p.slots s).flags &&& SLOT_VALID ≠ 0)
    (hf : (p.slots s).flags &&& SLOT_FORWARDED ≠ 0)
    (hq : (p.slots s).np0 + 256 * (p.slots s).np1 = q)
    (ht : (p.slots s).np2 = t)
    (hcross : q ≠ p.pageId) :
    p.chainGo (fuel + 2) visited (p.pageId, s) = (q, t) := by
  have hfp : p.GetForwardingPointer s = (q, t) := by
    unfold Page.GetForwardingPointer
    rw [if_neg (by omega), hq, ht]
  simp only [Page.chainGo]
  rw [if_neg (by simpa using hnv)]
  rw [if_neg (by simp)]
  rw [if_neg (by omega)]
  rw [if_neg hv, if_neg hf, if_neg (by omega)]
  rw [hfp]
  simp only [Page.chainGo]
  rw [if_neg (by
    simp only [List.contains_cons, Bool.or_eq_true, beq_iff_eq, Prod.mk.injEq, not_or]
    refine ⟨fun h => (hcross h.1).elim, by simpa using hnv2⟩)]
  rw [if_pos (by simpa using hcross)]

/-- C6 (amended).  The coordinator-level walker resolves the chain only
within the starting page: when the starting slot is valid and forwarded to a
slot on a different page, `FollowForwardingChainFull` returns that (page,
slot) pair as is — without fetching the second page — even when that slot is
itself forwarded (it does return the invalid tuple id on validation
failures). -/
theorem claim_C6_amended (S S1 : PageManager) (tid : Nat × Nat) (p : Page) (q t : Nat)
    (h0 : tid.1 ≠ 0) (h1 : tid.2 ≠ INVALID_SLOT_ID)
    (hget : S.GetPage tid.1 = (S1, some p))
    (hslot : tid.2 < p.slotCount)
    (hv : (p.slots tid.2).flags &&& SLOT_VALID ≠ 0)
    (hf : (p.slots tid.2).flags &&& SLOT_FORWARDED ≠ 0)
    (hq : (p.slots tid.2).np0 + 256 * (p.slots tid.2).np1 = q)
    (ht : (p.slots tid.2).np2 = t)
    (hcross : q ≠ p.pageId) :
    (S.FollowForwardingChainFull tid).2 = (q, t) := by
  unfold PageManager.FollowForwardingChainFull
  rw [if_neg (by simp [h0, h1])]
  rw [hget]
  simp only
  rw [if_neg (by omega)]
  show (p.FollowForwardingChain tid.2 10) = (q, t)
  unfold Page.FollowForwardingChain
  rw [if_neg (by omega)]
  show p.chainGo (9 + 2) [] (p.pageId, tid.2) = (q, t)
  exact chainGo_cross p tid.2 q t 9 [] (List.not_mem_nil _) (List.not_mem_nil _) hslot hv hf hq ht hcross

/-- Witness for the amended C6 at the concrete two-page chain state. -/
theorem claim_C6_witness :
    (stateC6.FollowForwardingChainFull (1, 0)).2 = (2, 0) :=
  claim_C6_amended stateC6 stateC6 (1, 0) pageC6a 2 0 (by decide) (by decide) rfl
    (by decide) (by decide) (by decide) (by decide) (by decide) (by decide)

/-! ### Checksum plumbing: the stored checksum field is not part of the
covered bytes, so resealing is stable. -/

lemma checksum.Update_congr (f g : Nat → Nat) (n : Nat) :
    ∀ s c, (∀ k, k < n → f (s + k) = g (s + k)) →
      checksum.Update f n s c = checksum.Update g n s c := by
  induction n with
  | zero => intro s c _; rfl
  | succ m ih =>
    intro s c h
    simp only [checksum.Update]
    rw [show f s = g s by simpa using h 0 (by omega)]
    exact ih (s + 1) _ (fun k hk => by
      rw [show s + 1 + k = s + (k + 1) by omega]
      exact h (k + 1) (by omega))

lemma byteAt_setChecksum (p : Page) (c o : Nat) (h : o < 12 ∨ 16 ≤ o) :
    ({ p with checksum := c } : Page).byteAt o = p.byteAt o := by
  rcases h with h | h
  · interval_cases o <;> rfl
  · have h1 : ¬ o < 2 := by omega
    have h2 : ¬ o < 4 := by omega
    have h3 : ¬ o < 6 := by omega
    have h4 : ¬ o < 8 := by omega
    have h5 : ¬ o < 10 := by omega
    have h6 : ¬ o = 10 := by omega
    have h7 : ¬ o = 11 := by omega
    have h8 : ¬ o < 16 := by omega
    unfold Page.byteAt
    simp only [if_neg h1, if_neg h2, if_neg h3, if_neg h4, if_neg h5, if_neg h6,
      if_neg h7, if_neg h8]

lemma ComputeChecksum_setChecksum (p : Page) (c : Nat) :
    ({ p with checksum := c } : Page).ComputeChecksum = p.ComputeChecksum := by
  unfold Page.ComputeChecksum
  rw [checksum.Update_congr ({ p with checksum := c } : Page).byteAt p.byteAt 12 0 _
    (fun k hk => by simpa using byteAt_setChecksum p c k (Or.inl (by omega)))]
  rw [checksum.Update_congr ({ p with checksum := c } : Page).byteAt p.byteAt
    (PAGE_SIZE - HEADER_SIZE) HEADER_SIZE _
    (fun k hk => byteAt_setChecksum p c (HEADER_SIZE + k)
      (Or.inr (by unfold HEADER_SIZE; omega)))]

/-- Resealing stores a checksum that still matches a recomputation. -/
lemma seal_checksum_ok (p : Page) : (p.seal).checksum = (p.seal).ComputeChecksum := by
  show p.ComputeChecksum = (p.seal).ComputeChecksum
  exact (ComputeChecksum_setChecksum p _).symm

/-! ### Page-level insert and the dirty flag (C3) -/

lemma findDeletedFrom_lt (p : Page) :
    ∀ n i s, p.findDeletedFrom n i = some s → i ≤ s ∧ s < i + n := by
  intro n
  induction n with
  | zero => intro i s h; exact absurd h (by simp [Page.findDeletedFrom])
  | succ m ih =>
    intro i s h
    unfold Page.findDeletedFrom at h
    by_cases hv : p.IsSlotValid i
    · rw [if_pos hv] at h
      have := ih (i + 1) s h
      omega
    · rw [if_neg hv] at h
      have : i = s := by exact Option.some.inj h
      omega

lemma findDeletedSlot_lt (p : Page) (s : Nat) (h : p.FindDeletedSlot = some s) :
    s < p.slotCount := by
  have := findDeletedFrom_lt p p.slotCount 0 s h
  omega

/-- A clean page, as the coordinator caches it after a disk read: a page
holding one tuple put through the runtime reinitialisation that
`DiskManager::ReadPage` performs (`is_dirty_ = false`). -/
def pageC3 : Page := ((Page.CreateNew.InsertTuple (fun _ => 1) 3).1).readReset

/-- C3 (code bug, dirty-flag part).  `Page::InsertTuple` never touches
`is_dirty_`: the dirty flag after any page-level insert equals the flag
before it.  Evaluated at the failing input: on the clean page `pageC3`
(as loaded from disk) an insert succeeds — returning fresh slot 1 — yet the
page still reports clean, so a later eviction would discard the insert
without writing it back.  (Spec §4.3 and the claim say a successful insert
sets the dirty flag, as `DeleteTuple`, `UpdateTupleInPlace` and
`MarkSlotForwarded` all do.) -/
theorem claim_C3 :
    (∀ (p : Page) (src : Nat → Nat) (size : Nat),
      ((p.InsertTuple src size).1).isDirty = p.isDirty) ∧
    pageC3.isDirty = false ∧
    (pageC3.InsertTuple (fun _ => 2) 4).2 = 1 ∧
    ((pageC3.InsertTuple (fun _ => 2) 4).1).isDirty = false := by
  refine ⟨?_, by decide, by decide, by decide⟩
  intro p src size
  unfold Page.InsertTuple
  by_cases h0 : size = 0
  · rw [if_pos h0]
  · rw [if_neg h0]
    cases hfd : p.FindDeletedSlot with
    | some s =>
      dsimp only
      by_cases ha : p.GetAvailableFreeSpace < size
      · rw [if_pos ha]
      · rw [if_neg ha]
        rfl
    | none =>
      dsimp only
      by_cases ha : p.GetAvailableFreeSpace < size + SLOT_ENTRY_SIZE
      · rw [if_pos ha]
      · rw [if_neg ha]
        by_cases hr : (p.AddSlot p.freeStart size).2 = INVALID_SLOT_ID
        · rw [if_pos hr]
        · rw [if_neg hr]
          show ((p.AddSlot p.freeStart size).1).isDirty = p.isDirty
          unfold Page.AddSlot
          dsimp only
          split <;> rfl

/-! ### Failed inserts leave the page untouched (C7) -/

lemma insertTuple_cases (p : Page) (src : Nat → Nat) (size : Nat)
    (hsc : p.slotCount < 65536) :
    p.InsertTuple src size = (p, INVALID_SLOT_ID) ∨
      (p.InsertTuple src size).2 ≠ INVALID_SLOT_ID := by
  unfold Page.InsertTuple
  by_cases h0 : size = 0
  · left; rw [if_pos h0]
  · rw [if_neg h0]
    rcases hfd : p.FindDeletedSlot with _ | s
    · dsimp only
      by_cases ha : p.GetAvailableFreeSpace < size + SLOT_ENTRY_SIZE
      · left; rw [if_pos ha]
      · rw [if_neg ha]
        by_cases hr : (p.AddSlot p.freeStart size).2 = INVALID_SLOT_ID
        · left; rw [if_pos hr]
        · right; rw [if_neg hr]; exact hr
    · dsimp only
      by_cases ha : p.GetAvailableFreeSpace < size
      · left; rw [if_pos ha]
      · right
        rw [if_neg ha]
        intro hEq
        have hs := findDeletedSlot_lt p s hfd
        have hv : s = 65535 := hEq
        omega

/-- C7.  Whenever a page-level insert fails (returns the sentinel slot id
65535), the returned page is exactly the argument page — header fields, slot
directory, data bytes and runtime counters included — and its stored checksum
still verifies.  `slot_count < 2^16` mirrors the `uint16_t` type of the
field; the second hypothesis says the page's stored checksum was valid, as
it is on every page the engine produces. -/
theorem claim_C7 (p : Page) (src : Nat → Nat) (size : Nat)
    (hsc : p.slotCount < 65536) (hck : p.checksum = p.ComputeChecksum)
    (hfail : (p.InsertTuple src size).2 = INVALID_SLOT_ID) :
    (p.InsertTuple src size).1 = p ∧
    ((p.InsertTuple src size).1).VerifyChecksum = true := by
  have key : (p.InsertTuple src size).1 = p := by
    rcases insertTuple_cases p src size hsc with h | h
    · rw [h]
    · exact absurd hfail h
  refine ⟨key, ?_⟩
  rw [key]
  unfold Page.VerifyChecksum
  rw [hck]
  simp

/-- Witness for C7: a 9000-byte tuple cannot fit a fresh page; the insert
fails and returns the page unchanged, checksum intact. -/
theorem claim_C7_witness :
    (Page.CreateNew.InsertTuple (fun _ => 1) 9000).1 = Page.CreateNew ∧
    ((Page.CreateNew.InsertTuple (fun _ => 1) 9000).1).VerifyChecksum = true :=
  claim_C7 Page.CreateNew (fun _ => 1) 9000 (by decide) (seal_checksum_ok _) (by decide)

/-! ### The structural page invariant

`WfCore` collects the structural facts that every page reachable through the
page operations satisfies: bounds on the free-area pointers, the slot
directory packed at the tail (except that an all-deleted compaction zeroes
`slot_count` without restoring `free_end`), valid slots inside the data area
and pairwise disjoint, and stored data bytes in `uint8_t` range.  The
runtime counters are deliberately absent: compaction resets them while
zeroed (still invalid) slot entries remain in the directory, so they do not
track the directory. -/

/-- Free-pointer bounds: the data area starts at or after the header, never
crosses the slot directory, and the directory is packed at the page tail —
except that an all-deleted compaction zeroes `slot_count` while leaving
`free_end` where it was. -/
def Page.WfBounds (p : Page) : Prop :=
  HEADER_SIZE ≤ p.freeStart ∧ p.freeStart ≤ p.freeEnd ∧
  p.freeEnd + SLOT_ENTRY_SIZE * p.slotCount ≤ PAGE_SIZE ∧
  (p.freeEnd = PAGE_SIZE - SLOT_ENTRY_SIZE * p.slotCount ∨ p.slotCount = 0)

/-- Every valid slot's bytes lie inside `[HEADER_SIZE, free_start)`. -/
def Page.WfSlots (p : Page) : Prop :=
  ∀ i < p.slotCount, (p.slots i).flags &&& SLOT_VALID ≠ 0 →
    HEADER_SIZE ≤ (p.slots i).offset ∧
    (p.slots i).offset + (p.slots i).length ≤ p.freeStart

/-- Distinct valid slots occupy disjoint byte ranges. -/
def Page.WfDisj (p : Page) : Prop :=
  ∀ i < p.slotCount, ∀ j < p.slotCount,
    i ≠ j ∧ (p.slots i).flags &&& SLOT_VALID ≠ 0 ∧ (p.slots j).flags &&& SLOT_VALID ≠ 0 →
    (p.slots i).offset + (p.slots i).length ≤ (p.slots j).offset ∨
    (p.slots j).offset + (p.slots j).length ≤ (p.slots i).offset

/-- The stored bytes of every valid slot are in `uint8_t` range. -/
def Page.WfData (p : Page) : Prop :=
  ∀ i < p.slotCount, (p.slots i).flags &&& SLOT_VALID ≠ 0 →
    ∀ k < (p.slots i).length, p.data ((p.slots i).offset + k) < 256

def Page.WfCore (p : Page) : Prop :=
  p.WfBounds ∧ p.WfSlots ∧ p.WfDisj ∧ p.WfData

instance (p : Page) : Decidable p.WfBounds := by
  unfold Page.WfBounds; infer_instance

instance (p : Page) : Decidable p.WfSlots := by
  unfold Page.WfSlots; infer_instance

instance (p : Page) : Decidable p.WfDisj := by
  unfold Page.WfDisj; infer_instance

instance (p : Page) : Decidable p.WfData := by
  unfold Page.WfData; infer_instance

instance (p : Page) : Decidable p.WfCore := by
  unfold Page.WfCore; infer_instance

lemma setSlot_same (p : Page) (i : Nat) (e : SlotEntry) : p.setSlot i e i = e := by
  simp [Page.setSlot]

lemma setSlot_other (p : Page) (i j : Nat) (e : SlotEntry) (h : j ≠ i) :
    p.setSlot i e j = p.slots j := by
  simp [Page.setSlot, h]

lemma writeBytes_lt (g : Nat → Nat) (start : Nat) (src : Nat → Nat) (len o : Nat)
    (h : o < start) : writeBytes g start src len o = g o := by
  unfold writeBytes
  rw [if_neg (by omega)]

lemma writeBytes_ge (g : Nat → Nat) (start : Nat) (src : Nat → Nat) (len o : Nat)
    (h : start + len ≤ o) : writeBytes g start src len o = g o := by
  unfold writeBytes
  rw [if_neg (by omega)]

lemma writeBytes_in (g : Nat → Nat) (start : Nat) (src : Nat → Nat) (len k : Nat)
    (h : k < len) : writeBytes g start src len (start + k) = src k % 256 := by
  unfold writeBytes
  rw [if_pos (by omega)]
  simp

/-- Every page operation either leaves the page untouched or ends by
recomputing and storing the checksum. -/
lemma insertTuple_shape (p : Page) (src : Nat → Nat) (size : Nat) :
    (p.InsertTuple src size).1 = p ∨ ∃ q, (p.InsertTuple src size).1 = Page.seal q := by
  unfold Page.InsertTuple
  by_cases h0 : size = 0
  · left; rw [if_pos h0]
  · rw [if_neg h0]
    rcases hfd : p.FindDeletedSlot with _ | s
    · dsimp only
      by_cases ha : p.GetAvailableFreeSpace < size + SLOT_ENTRY_SIZE
      · left; rw [if_pos ha]
      · rw [if_neg ha]
        by_cases hr : (p.AddSlot p.freeStart size).2 = INVALID_SLOT_ID
        · left; rw [if_pos hr]
        · right
          rw [if_neg hr]
          exact ⟨_, rfl⟩
    · dsimp only
      by_cases ha : p.GetAvailableFreeSpace < size
      · left; rw [if_pos ha]
      · right
        rw [if_neg ha]
        exact ⟨_, rfl⟩

lemma deleteTuple_shape (p : Page) (s : Nat) :
    (p.DeleteTuple s).1 = p ∨ ∃ q, (p.DeleteTuple s).1 = Page.seal q := by
  unfold Page.DeleteTuple
  by_cases h1 : p.slotCount ≤ s
  · left; rw [if_pos h1]
  · rw [if_neg h1]
    dsimp only
    by_cases h2 : (p.slots s).flags &&& SLOT_VALID = 0
    · left; rw [if_pos h2]
    · right; rw [if_neg h2]; exact ⟨_, rfl⟩

lemma updateTuple_shape (p : Page) (s : Nat) (src : Nat → Nat) (size : Nat) :
    (p.UpdateTupleInPlace s src size).1 = p ∨
      ∃ q, (p.UpdateTupleInPlace s src size).1 = Page.seal q := by
  unfold Page.UpdateTupleInPlace
  by_cases h0 : size = 0
  · left; rw [if_pos h0]
  · rw [if_neg h0]
    by_cases h1 : p.slotCount ≤ s
    · left; rw [if_pos h1]
    · rw [if_neg h1]
      dsimp only
      by_cases h2 : (p.slots s).flags &&& SLOT_VALID = 0
      · left; rw [if_pos h2]
      · rw [if_neg h2]
        by_cases h3 : (p.slots s).flags &&& SLOT_FORWARDED ≠ 0
        · left; rw [if_pos h3]
        · rw [if_neg h3]
          by_cases h4 : (p.slots s).length < size
          · left; rw [if_pos h4]
          · right; rw [if_neg h4]; exact ⟨_, rfl⟩

lemma markForwarded_shape (p : Page) (s a b : Nat) :
    (p.MarkSlotForwarded s a b).1 = p ∨ ∃ q, (p.MarkSlotForwarded s a b).1 = Page.seal q := by
  unfold Page.MarkSlotForwarded
  by_cases h1 : p.slotCount ≤ s
  · left; rw [if_pos h1]
  · rw [if_neg h1]
    dsimp only
    by_cases h2 : (p.slots s).flags &&& SLOT_VALID = 0
    · left; rw [if_pos h2]
    · right; rw [if_neg h2]; exact ⟨_, rfl⟩

lemma compactPage_shape (p : Page) :
    p.CompactPage = p ∨ ∃ q, p.CompactPage = Page.seal q := by
  unfold Page.CompactPage
  by_cases h1 : p.deletedCount = 0
  · left; rw [if_pos h1]
  · rw [if_neg h1]
    by_cases h2 : p.slotCount = p.deletedCount
    · right; rw [if_pos h2]; exact ⟨_, rfl⟩
    · right; rw [if_neg h2]; exact ⟨_, rfl⟩

/-! ### Preservation of the structural invariant by the page operations -/

lemma and254_and1 (f : Nat) : (f &&& 254) &&& 1 = 0 := by
  have h : (254 : Nat) &&& 1 = 0 := rfl
  rw [Nat.and_assoc, h, Nat.and_zero]

lemma or_mod_two_pow (a b n : Nat) : (a ||| b) % 2 ^ n = a % 2 ^ n ||| b % 2 ^ n := by
  apply Nat.eq_of_testBit_eq
  intro i
  simp only [Nat.testBit_mod_two_pow, Nat.testBit_or]
  by_cases h : i < n <;> simp [h]

lemma or2_and1 (f : Nat) : (f ||| 2) &&& 1 = f &&& 1 := by
  rw [Nat.and_one_is_mod, Nat.and_one_is_mod]
  have h := or_mod_two_pow f 2 1
  simpa using h

lemma withChecksum_freeStart (p : Page) (c : Nat) : (p.withChecksum c).freeStart = p.freeStart := rfl

lemma withChecksum_freeEnd (p : Page) (c : Nat) : (p.withChecksum c).freeEnd = p.freeEnd := rfl

lemma withChecksum_slotCount (p : Page) (c : Nat) : (p.withChecksum c).slotCount = p.slotCount := rfl

lemma withChecksum_slots (p : Page) (c : Nat) : (p.withChecksum c).slots = p.slots := rfl

lemma withChecksum_data (p : Page) (c : Nat) : (p.withChecksum c).data = p.data := rfl

lemma withChecksum_pageId (p : Page) (c : Nat) : (p.withChecksum c).pageId = p.pageId := rfl

lemma withChecksum_isDirty (p : Page) (c : Nat) : (p.withChecksum c).isDirty = p.isDirty := rfl

lemma withChecksum_deletedCount (p : Page) (c : Nat) :
    (p.withChecksum c).deletedCount = p.deletedCount := rfl

lemma withChecksum_fragmented (p : Page) (c : Nat) :
    (p.withChecksum c).fragmented = p.fragmented := rfl

lemma withChecksum_slotHigh (p : Page) (c : Nat) : (p.withChecksum c).slotHigh = p.slotHigh := rfl

lemma seal_freeStart (p : Page) : (p.seal).freeStart = p.freeStart := withChecksum_freeStart p _

lemma seal_freeEnd (p : Page) : (p.seal).freeEnd = p.freeEnd := withChecksum_freeEnd p _

lemma seal_slotCount (p : Page) : (p.seal).slotCount = p.slotCount := withChecksum_slotCount p _

lemma seal_slots (p : Page) : (p.seal).slots = p.slots := withChecksum_slots p _

lemma seal_data (p : Page) : (p.seal).data = p.data := withChecksum_data p _

lemma seal_pageId (p : Page) : (p.seal).pageId = p.pageId := withChecksum_pageId p _

lemma seal_isDirty (p : Page) : (p.seal).isDirty = p.isDirty := withChecksum_isDirty p _

lemma seal_deletedCount (p : Page) : (p.seal).deletedCount = p.deletedCount :=
  withChecksum_deletedCount p _

lemma seal_fragmented (p : Page) : (p.seal).fragmented = p.fragmented :=
  withChecksum_fragmented p _

lemma seal_slotHigh (p : Page) : (p.seal).slotHigh = p.slotHigh := withChecksum_slotHigh p _

/-- Transport the structural invariant across pages that agree on the fields
it mentions. -/
lemma wfCore_transport (p q : Page) (hfs : q.freeStart = p.freeStart)
    (hfe : q.freeEnd = p.freeEnd) (hsc : q.slotCount = p.slotCount)
    (hsl : q.slots = p.slots) (hd : q.data = p.data) (h : p.WfCore) : q.WfCore := by
  obtain ⟨hB, hS, hD, hA⟩ := h
  refine ⟨?_, ?_, ?_, ?_⟩
  · unfold Page.WfBounds at hB ⊢
    rw [hfs, hfe, hsc]
    exact hB
  · unfold Page.WfSlots at hS ⊢
    rw [hfs, hsc, hsl]
    exact hS
  · unfold Page.WfDisj at hD ⊢
    rw [hsc, hsl]
    exact hD
  · unfold Page.WfData at hA ⊢
    rw [hsc, hsl, hd]
    exact hA

lemma wfCore_seal (p : Page) (h : p.WfCore) : (p.seal).WfCore :=
  wfCore_transport p p.seal (seal_freeStart p) (seal_freeEnd p) (seal_slotCount p)
    (seal_slots p) (seal_data p) h

lemma wfCore_deleteTuple (p : Page) (s : Nat) (h : p.WfCore) :
    ((p.DeleteTuple s).1).WfCore := by
  obtain ⟨hB, hS, hD, hA⟩ := h
  unfold Page.DeleteTuple
  by_cases h1 : p.slotCount ≤ s
  · rw [if_pos h1]; exact ⟨hB, hS, hD, hA⟩
  · rw [if_neg h1]
    dsimp only
    by_cases h2 : (p.slots s).flags &&& SLOT_VALID = 0
    · rw [if_pos h2]; exact ⟨hB, hS, hD, hA⟩
    · rw [if_neg h2]
      apply wfCore_seal
      refine ⟨hB, ?_, ?_, ?_⟩
      · intro i hi hv
        dsimp only at hi hv ⊢
        by_cases his : i = s
        · subst his
          rw [setSlot_same] at hv
          exact absurd (and254_and1 (p.slots i).flags) hv
        · rw [setSlot_other _ _ _ _ his] at hv ⊢
          exact hS i hi hv
      · intro i hi j hj hcond
        dsimp only at hi hj hcond ⊢
        obtain ⟨hij, hvi, hvj⟩ := hcond
        by_cases his : i = s
        · subst his
          rw [setSlot_same] at hvi
          exact absurd (and254_and1 (p.slots i).flags) hvi
        · by_cases hjs : j = s
          · subst hjs
            rw [setSlot_same] at hvj
            exact absurd (and254_and1 (p.slots j).flags) hvj
          · rw [setSlot_other _ _ _ _ his] at hvi
            rw [setSlot_other _ _ _ _ hjs] at hvj
            rw [setSlot_other _ _ _ _ his, setSlot_other _ _ _ _ hjs]
            exact hD i hi j hj ⟨hij, hvi, hvj⟩
      · intro i hi hv
        dsimp only at hi hv ⊢
        by_cases his : i = s
        · subst his
          rw [setSlot_same] at hv
          exact absurd (and254_and1 (p.slots i).flags) hv
        · rw [setSlot_other _ _ _ _ his] at hv ⊢
          exact hA i hi hv

lemma wfCore_updateTuple (p : Page) (s : Nat) (src : Nat → Nat) (size : Nat)
    (h : p.WfCore) : ((p.UpdateTupleInPlace s src size).1).WfCore := by
  obtain ⟨hB, hS, hD, hA⟩ := h
  unfold Page.UpdateTupleInPlace
  by_cases h0 : size = 0
  · rw [if_pos h0]; exact ⟨hB, hS, hD, hA⟩
  · rw [if_neg h0]
    by_cases h1 : p.slotCount ≤ s
    · rw [if_pos h1]; exact ⟨hB, hS, hD, hA⟩
    · rw [if_neg h1]
      dsimp only
      by_cases h2 : (p.slots s).flags &&& SLOT_VALID = 0
      · rw [if_pos h2]; exact ⟨hB, hS, hD, hA⟩
      · rw [if_neg h2]
        by_cases h3 : (p.slots s).flags &&& SLOT_FORWARDED ≠ 0
        · rw [if_pos h3]; exact ⟨hB, hS, hD, hA⟩
        · rw [if_neg h3]
          by_cases h4 : (p.slots s).length < size
          · rw [if_pos h4]; exact ⟨hB, hS, hD, hA⟩
          · rw [if_neg h4]
            apply wfCore_seal
            have hsOld := hS s (by omega) h2
            refine ⟨hB, ?_, ?_, ?_⟩
            · intro i hi hv
              dsimp only at hi hv ⊢
              by_cases his : i = s
              · subst his
                rw [setSlot_same] at hv ⊢
                dsimp only
                omega
              · rw [setSlot_other _ _ _ _ his] at hv ⊢
                exact hS i hi hv
            · intro i hi j hj hcond
              dsimp only at hi hj hcond ⊢
              obtain ⟨hij, hvi, hvj⟩ := hcond
              by_cases his : i = s
              · subst his
                rw [setSlot_same] at hvi ⊢
                by_cases hjs : j = i
                · omega
                · rw [setSlot_other _ _ _ _ hjs] at hvj ⊢
                  dsimp only
                  have := hD i hi j hj ⟨hij, h2, hvj⟩
                  omega
              · rw [setSlot_other _ _ _ _ his] at hvi ⊢
                by_cases hjs : j = s
                · subst hjs
                  rw [setSlot_same] at hvj ⊢
                  dsimp only
                  have := hD i hi j hj ⟨hij, hvi, h2⟩
                  omega
                · rw [setSlot_other _ _ _ _ hjs] at hvj ⊢
                  exact hD i hi j hj ⟨hij, hvi, hvj⟩
            · intro i hi hv
              dsimp only at hi hv ⊢
              by_cases his : i = s
              · subst his
                rw [setSlot_same] at hv ⊢
                dsimp only
                intro k hk
                rw [writeBytes_in _ _ _ _ _ (by omega)]
                exact Nat.mod_lt _ (by omega)
              · rw [setSlot_other _ _ _ _ his] at hv ⊢
                intro k hk
                have hio := hS i hi hv
                have hdisj := hD i hi s (by omega) ⟨his, hv, h2⟩
                rcases hdisj with hd1 | hd2
                · rw [writeBytes_lt _ _ _ _ _ (by omega)]
                  exact hA i hi hv k hk
                · rw [writeBytes_ge _ _ _ _ _ (by omega)]
                  exact hA i hi hv k hk

lemma wfCore_markForwarded (p : Page) (s a b : Nat) (h : p.WfCore) :
    ((p.MarkSlotForwarded s a b).1).WfCore := by
  obtain ⟨hB, hS, hD, hA⟩ := h
  unfold Page.MarkSlotForwarded
  by_cases h1 : p.slotCount ≤ s
  · rw [if_pos h1]; exact ⟨hB, hS, hD, hA⟩
  · rw [if_neg h1]
    dsimp only
    by_cases h2 : (p.slots s).flags &&& SLOT_VALID = 0
    · rw [if_pos h2]; exact ⟨hB, hS, hD, hA⟩
    · rw [if_neg h2]
      apply wfCore_seal
      have hsOld := hS s (by omega) h2
      refine ⟨hB, ?_, ?_, ?_⟩
      · intro i hi hv
        dsimp only at hi hv ⊢
        by_cases his : i = s
        · subst his
          rw [setSlot_same]
          dsimp only
          omega
        · rw [setSlot_other _ _ _ _ his] at hv ⊢
          exact hS i hi hv
      · intro i hi j hj hcond
        dsimp only at hi hj hcond ⊢
        obtain ⟨hij, hvi, hvj⟩ := hcond
        by_cases his : i = s
        · subst his
          rw [setSlot_same] at hvi ⊢
          by_cases hjs : j = i
          · omega
          · rw [setSlot_other _ _ _ _ hjs] at hvj ⊢
            dsimp only
            have := hD i hi j hj ⟨hij, h2, hvj⟩
            omega
        · rw [setSlot_other _ _ _ _ his] at hvi ⊢
          by_cases hjs : j = s
          · subst hjs
            rw [setSlot_same] at hvj ⊢
            dsimp only
            have := hD i hi j hj ⟨hij, hvi, h2⟩
            omega
          · rw [setSlot_other _ _ _ _ hjs] at hvj ⊢
            exact hD i hi j hj ⟨hij, hvi, hvj⟩
      · intro i hi hv
        dsimp only at hi hv ⊢
        by_cases his : i = s
        · subst his
          rw [setSlot_same]
          dsimp only
          intro k hk
          omega
        · rw [setSlot_other _ _ _ _ his] at hv ⊢
          exact hA i hi hv

lemma findDeletedFrom_invalid (p : Page) :
    ∀ n i s, p.findDeletedFrom n i = some s → p.IsSlotValid s = false := by
  intro n
  induction n with
  | zero => intro i s h; exact absurd h (by simp [Page.findDeletedFrom])
  | succ m ih =>
    intro i s h
    unfold Page.findDeletedFrom at h
    by_cases hv : p.IsSlotValid i
    · rw [if_pos hv] at h
      exact ih (i + 1) s h
    · rw [if_neg hv] at h
      have hei : i = s := Option.some.inj h
      subst hei
      exact Bool.eq_false_iff.mpr hv

lemma findDeletedSlot_invalid (p : Page) (s : Nat) (h : p.FindDeletedSlot = some s) :
    (p.slots s).flags &&& SLOT_VALID = 0 := by
  have hlt := findDeletedSlot_lt p s h
  have hval := findDeletedFrom_invalid p p.slotCount 0 s h
  unfold Page.IsSlotValid at hval
  rw [decide_eq_true hlt] at hval
  simpa using hval

lemma wfCore_insertTuple (p : Page) (src : Nat → Nat) (size : Nat) (h : p.WfCore) :
    ((p.InsertTuple src size).1).WfCore := by
  obtain ⟨hB, hS, hD, hA⟩ := h
  obtain ⟨hb1, hb2, hb3, hb4⟩ := hB
  unfold Page.InsertTuple
  by_cases h0 : size = 0
  · rw [if_pos h0]; exact ⟨⟨hb1, hb2, hb3, hb4⟩, hS, hD, hA⟩
  · rw [if_neg h0]
    rcases hfd : p.FindDeletedSlot with _ | s
    · dsimp only
      by_cases ha : p.GetAvailableFreeSpace < size + SLOT_ENTRY_SIZE
      · rw [if_pos ha]; exact ⟨⟨hb1, hb2, hb3, hb4⟩, hS, hD, hA⟩
      · rw [if_neg ha]
        have havail : p.freeEnd - p.freeStart ≥ size + SLOT_ENTRY_SIZE := by
          unfold Page.GetAvailableFreeSpace at ha
          rw [if_neg (by omega)] at ha
          omega
        unfold Page.AddSlot
        dsimp only
        by_cases hoff : PAGE_SIZE - (p.slotCount + 1) * SLOT_ENTRY_SIZE ≤ p.freeStart
        · rw [if_pos hoff]
          dsimp only
          rw [if_pos rfl]
          exact ⟨⟨hb1, hb2, hb3, hb4⟩, hS, hD, hA⟩
        · rw [if_neg hoff]
          dsimp only
          have hsc8 : (p.slotCount + 1) * SLOT_ENTRY_SIZE < PAGE_SIZE := by
            unfold PAGE_SIZE SLOT_ENTRY_SIZE HEADER_SIZE at *
            omega
          have hscne : p.slotCount ≠ INVALID_SLOT_ID := by
            unfold PAGE_SIZE SLOT_ENTRY_SIZE INVALID_SLOT_ID HEADER_SIZE at *
            omega
          rw [if_neg hscne]
          apply wfCore_seal
          have hfs : (p.freeStart + size) % 65536 = p.freeStart + size := by
            apply Nat.mod_eq_of_lt
            unfold PAGE_SIZE SLOT_ENTRY_SIZE HEADER_SIZE at *
            omega
          refine ⟨?_, ?_, ?_, ?_⟩
          · refine ⟨?_, ?_, ?_, ?_⟩
            · dsimp only
              unfold PAGE_SIZE SLOT_ENTRY_SIZE HEADER_SIZE at *
              omega
            · dsimp only
              unfold PAGE_SIZE SLOT_ENTRY_SIZE HEADER_SIZE at *
              omega
            · dsimp only
              unfold PAGE_SIZE SLOT_ENTRY_SIZE HEADER_SIZE at *
              omega
            · left
              dsimp only
              unfold PAGE_SIZE SLOT_ENTRY_SIZE HEADER_SIZE at *
              omega
          · intro i hi hv
            dsimp only at hi hv ⊢
            by_cases his : i = p.slotCount
            · subst his
              rw [setSlot_same]
              dsimp only
              unfold HEADER_SIZE at *
              omega
            · rw [setSlot_other _ _ _ _ his] at hv ⊢
              have := hS i (by omega) hv
              omega
          · intro i hi j hj hcond
            dsimp only at hi hj hcond ⊢
            obtain ⟨hij, hvi, hvj⟩ := hcond
            by_cases his : i = p.slotCount
            · subst his
              rw [setSlot_same] at hvi ⊢
              by_cases hjs : j = p.slotCount
              · omega
              · rw [setSlot_other _ _ _ _ hjs] at hvj ⊢
                dsimp only
                have := hS j (by omega) hvj
                omega
            · rw [setSlot_other _ _ _ _ his] at hvi ⊢
              by_cases hjs : j = p.slotCount
              · subst hjs
                rw [setSlot_same] at hvj ⊢
                dsimp only
                have := hS i (by omega) hvi
                omega
              · rw [setSlot_other _ _ _ _ hjs] at hvj ⊢
                exact hD i (by omega) j (by omega) ⟨hij, hvi, hvj⟩
          · intro i hi hv
            dsimp only at hi hv ⊢
            by_cases his : i = p.slotCount
            · subst his
              rw [setSlot_same] at hv ⊢
              dsimp only
              intro k hk
              rw [writeBytes_in _ _ _ _ _ (by omega)]
              exact Nat.mod_lt _ (by omega)
            · rw [setSlot_other _ _ _ _ his] at hv ⊢
              intro k hk
              have hio := hS i (by omega) hv
              rw [writeBytes_lt _ _ _ _ _ (by omega)]
              exact hA i (by omega) hv k hk
    · dsimp only
      by_cases ha : p.GetAvailableFreeSpace < size
      · rw [if_pos ha]; exact ⟨⟨hb1, hb2, hb3, hb4⟩, hS, hD, hA⟩
      · rw [if_neg ha]
        have havail : p.freeEnd - p.freeStart ≥ size := by
          unfold Page.GetAvailableFreeSpace at ha
          rw [if_neg (by omega)] at ha
          omega
        have hsinv := findDeletedSlot_invalid p s hfd
        have hslt := findDeletedSlot_lt p s hfd
        apply wfCore_seal
        have hfs : (p.freeStart + size) % 65536 = p.freeStart + size := by
          apply Nat.mod_eq_of_lt
          unfold PAGE_SIZE SLOT_ENTRY_SIZE HEADER_SIZE at *
          omega
        refine ⟨?_, ?_, ?_, ?_⟩
        · refine ⟨?_, ?_, ?_, ?_⟩
          · dsimp only
            unfold PAGE_SIZE SLOT_ENTRY_SIZE HEADER_SIZE at *
            omega
          · dsimp only
            unfold PAGE_SIZE SLOT_ENTRY_SIZE HEADER_SIZE at *
            omega
          · dsimp only
            exact hb3
          · dsimp only
            exact hb4
        · intro i hi hv
          dsimp only at hi hv ⊢
          by_cases his : i = s
          · subst his
            rw [setSlot_same]
            dsimp only
            unfold HEADER_SIZE at *
            omega
          · rw [setSlot_other _ _ _ _ his] at hv ⊢
            have := hS i hi hv
            omega
        · intro i hi j hj hcond
          dsimp only at hi hj hcond ⊢
          obtain ⟨hij, hvi, hvj⟩ := hcond
          by_cases his : i = s
          · subst his
            rw [setSlot_same] at hvi ⊢
            by_cases hjs : j = i
            · omega
            · rw [setSlot_other _ _ _ _ hjs] at hvj ⊢
              dsimp only
              have := hS j hj hvj
              omega
          · rw [setSlot_other _ _ _ _ his] at hvi ⊢
            by_cases hjs : j = s
            · subst hjs
              rw [setSlot_same] at hvj ⊢
              dsimp only
              have := hS i hi hvi
              omega
            · rw [setSlot_other _ _ _ _ hjs] at hvj ⊢
              exact hD i hi j hj ⟨hij, hvi, hvj⟩
        · intro i hi hv
          dsimp only at hi hv ⊢
          by_cases his : i = s
          · subst his
            rw [setSlot_same] at hv ⊢
            dsimp only
            intro k hk
            rw [writeBytes_in _ _ _ _ _ (by omega)]
            exact Nat.mod_lt _ (by omega)
          · rw [setSlot_other _ _ _ _ his] at hv ⊢
            intro k hk
            have hio := hS i hi hv
            rw [writeBytes_lt _ _ _ _ _ (by omega)]
            exact hA i hi hv k hk

/-! ### Compaction: dense repacking facts -/

lemma validSlots_mem (p : Page) (i : Nat) :
    i ∈ p.validSlots ↔ i < p.slotCount ∧ (p.slots i).flags &&& SLOT_VALID ≠ 0 := by
  unfold Page.validSlots
  simp [List.mem_filter, List.mem_range]

lemma validSlots_nodup (p : Page) : p.validSlots.Nodup :=
  (List.nodup_range _).filter _

lemma sumLen_cons (p : Page) (a : Nat) (l : List Nat) :
    p.sumLen (a :: l) = (p.slots a).length + p.sumLen l := by
  unfold Page.sumLen
  simp

/-- Total length of pairwise disjoint valid-slot ranges inside
`[HEADER_SIZE, free_start)` is bounded by the used space. -/
lemma sumLen_le (p : Page) (hS : p.WfSlots) (hD : p.WfDisj) :
    p.sumLen p.validSlots ≤ p.freeStart - HEADER_SIZE := by
  classical
  set L := p.validSlots with hL
  have hnd : L.Nodup := validSlots_nodup p
  have hsum : p.sumLen L = ∑ i in L.toFinset, (p.slots i).length := by
    unfold Page.sumLen
    rw [List.sum_toFinset _ hnd]
  have hdisj : ∀ x ∈ L.toFinset, ∀ y ∈ L.toFinset, x ≠ y →
      Disjoint (Finset.Ico (p.slots x).offset ((p.slots x).offset + (p.slots x).length))
        (Finset.Ico (p.slots y).offset ((p.slots y).offset + (p.slots y).length)) := by
    intro x hx y hy hxy
    rw [List.mem_toFinset, hL, validSlots_mem] at hx hy
    rw [Finset.disjoint_left]
    intro z hz1 hz2
    rw [Finset.mem_Ico] at hz1 hz2
    rcases hD x hx.1 y hy.1 ⟨hxy, hx.2, hy.2⟩ with hc | hc <;> omega
  have hcard : ∑ i in L.toFinset, (p.slots i).length =
      (L.toFinset.biUnion (fun i =>
        Finset.Ico (p.slots i).offset ((p.slots i).offset + (p.slots i).length))).card := by
    rw [Finset.card_biUnion hdisj]
    refine Finset.sum_congr rfl (fun i _ => ?_)
    rw [Nat.card_Ico]
    omega
  have hsub : L.toFinset.biUnion (fun i =>
      Finset.Ico (p.slots i).offset ((p.slots i).offset + (p.slots i).length)) ⊆
      Finset.Ico HEADER_SIZE p.freeStart := by
    intro z hz
    rw [Finset.mem_biUnion] at hz
    obtain ⟨i, hi, hzi⟩ := hz
    rw [List.mem_toFinset, hL, validSlots_mem] at hi
    rw [Finset.mem_Ico] at hzi ⊢
    have := hS i hi.1 hi.2
    omega
  have hle := Finset.card_le_card hsub
  rw [Nat.card_Ico] at hle
  omega

lemma compactAssign_lookup_none (p : Page) :
    ∀ (l : List Nat) (ofs i : Nat), i ∉ l → (p.compactAssign l ofs).lookup i = none := by
  intro l
  induction l with
  | nil => intro ofs i _; rfl
  | cons a rest ih =>
    intro ofs i hni
    have hia : i ≠ a := fun h => hni (h ▸ List.mem_cons_self a rest)
    have hba : (i == a) = false := beq_eq_false_iff_ne.mpr hia
    unfold Page.compactAssign
    simp only [List.lookup, hba]
    exact ih _ i (fun h => hni (List.mem_cons_of_mem a h))

lemma compactAssign_bounds (p : Page) :
    ∀ (l : List Nat) (ofs i o : Nat), (p.compactAssign l ofs).lookup i = some o →
      i ∈ l ∧ HEADER_SIZE + ofs ≤ o ∧
        o + (p.slots i).length ≤ HEADER_SIZE + ofs + p.sumLen l := by
  intro l
  induction l with
  | nil => intro ofs i o h; exact absurd h (by simp [Page.compactAssign])
  | cons a rest ih =>
    intro ofs i o h
    unfold Page.compactAssign at h
    rw [sumLen_cons]
    by_cases hia : i = a
    · subst hia
      simp only [List.lookup, beq_self_eq_true] at h
      have ho : o = HEADER_SIZE + ofs := (Option.some.inj h).symm
      subst ho
      exact ⟨List.mem_cons_self _ _, le_refl _, by omega⟩
    · have hba : (i == a) = false := beq_eq_false_iff_ne.mpr hia
      simp only [List.lookup, hba] at h
      obtain ⟨hm, h1, h2⟩ := ih (ofs + (p.slots a).length) i o h
      exact ⟨List.mem_cons_of_mem a hm, by omega, by omega⟩

lemma compactAssign_lookup_mem (p : Page) :
    ∀ (l : List Nat) (ofs i : Nat), i ∈ l →
      ∃ o, (p.compactAssign l ofs).lookup i = some o := by
  intro l
  induction l with
  | nil => intro ofs i h; exact absurd h (List.not_mem_nil i)
  | cons a rest ih =>
    intro ofs i hi
    unfold Page.compactAssign
    by_cases hia : i = a
    · subst hia
      simp only [List.lookup, beq_self_eq_true]
      exact ⟨_, rfl⟩
    · have hba : (i == a) = false := beq_eq_false_iff_ne.mpr hia
      simp only [List.lookup, hba]
      exact ih _ i ((List.mem_cons.mp hi).resolve_left hia)

lemma compactAssign_disjoint (p : Page) :
    ∀ (l : List Nat) (ofs i oi j oj : Nat),
      (p.compactAssign l ofs).lookup i = some oi →
      (p.compactAssign l ofs).lookup j = some oj → i ≠ j →
      oi + (p.slots i).length ≤ oj ∨ oj + (p.slots j).length ≤ oi := by
  intro l
  induction l with
  | nil => intro ofs i oi j oj h _ _; exact absurd h (by simp [Page.compactAssign])
  | cons a rest ih =>
    intro ofs i oi j oj hi hj hij
    unfold Page.compactAssign at hi hj
    by_cases hia : i = a
    · subst hia
      simp only [List.lookup, beq_self_eq_true] at hi
      have hoi : oi = HEADER_SIZE + ofs := (Option.some.inj hi).symm
      have hja : j ≠ i := fun h => hij h.symm
      have hbj : (j == i) = false := beq_eq_false_iff_ne.mpr hja
      simp only [List.lookup, hbj] at hj
      obtain ⟨_, hb1, _⟩ := compactAssign_bounds p rest (ofs + (p.slots i).length) j oj hj
      left
      omega
    · have hba : (i == a) = false := beq_eq_false_iff_ne.mpr hia
      simp only [List.lookup, hba] at hi
      by_cases hja : j = a
      · subst hja
        simp only [List.lookup, beq_self_eq_true] at hj
        have hoj : oj = HEADER_SIZE + ofs := (Option.some.inj hj).symm
        obtain ⟨_, hb1, _⟩ := compactAssign_bounds p rest (ofs + (p.slots j).length) i oi hi
        right
        omega
      · have hbj : (j == a) = false := beq_eq_false_iff_ne.mpr hja
        simp only [List.lookup, hbj] at hj
        exact ih _ i oi j oj hi hj hij

lemma compactCopy_low (p : Page) :
    ∀ (l : List Nat) (ofs : Nat) (acc : Nat → Nat) (o : Nat),
      o < HEADER_SIZE + ofs → p.compactCopy l ofs acc o = acc o := by
  intro l
  induction l with
  | nil => intro ofs acc o _; rfl
  | cons a rest ih =>
    intro ofs acc o ho
    unfold Page.compactCopy
    rw [ih _ _ o (by omega)]
    exact writeBytes_lt _ _ _ _ _ (by omega)

lemma compactCopy_read (p : Page) :
    ∀ (l : List Nat) (ofs : Nat) (acc : Nat → Nat) (i o : Nat),
      (p.compactAssign l ofs).lookup i = some o →
      ∀ k, k < (p.slots i).length →
        p.compactCopy l ofs acc (o + k) = p.data ((p.slots i).offset + k) % 256 := by
  intro l
  induction l with
  | nil => intro ofs acc i o h; exact absurd h (by simp [Page.compactAssign])
  | cons a rest ih =>
    intro ofs acc i o h k hk
    unfold Page.compactAssign at h
    unfold Page.compactCopy
    by_cases hia : i = a
    · subst hia
      simp only [List.lookup, beq_self_eq_true] at h
      have ho : o = HEADER_SIZE + ofs := (Option.some.inj h).symm
      subst ho
      rw [compactCopy_low p rest _ _ _ (by omega)]
      exact writeBytes_in acc (HEADER_SIZE + ofs)
        (fun j => p.data ((p.slots i).offset + j)) (p.slots i).length k hk
    · have hba : (i == a) = false := beq_eq_false_iff_ne.mpr hia
      simp only [List.lookup, hba] at h
      exact ih _ _ i o h k hk
lemma compactSlots_some (p : Page) (i o : Nat)
    (h : (p.compactAssign p.validSlots 0).lookup i = some o) :
    p.compactSlots i = { p.slots i with offset := o } := by
  unfold Page.compactSlots
  rw [h]

lemma compactSlots_none_lt (p : Page) (i : Nat)
    (h : (p.compactAssign p.validSlots 0).lookup i = none) (hi : i < p.slotCount) :
    p.compactSlots i = SlotEntry.zero := by
  unfold Page.compactSlots
  rw [h, if_pos hi]

/-- `Page::CompactPage` preserves the structural invariant (in all three of
its branches). -/
lemma wfCore_compactPage (p : Page) (h : p.WfCore) : (p.CompactPage).WfCore := by
  have hB := h.1
  have hS := h.2.1
  have hD := h.2.2.1
  have hA := h.2.2.2
  unfold Page.CompactPage
  by_cases h1 : p.deletedCount = 0
  · rw [if_pos h1]; exact h
  · rw [if_neg h1]
    by_cases h2 : p.slotCount = p.deletedCount
    · rw [if_pos h2]
      apply wfCore_seal
      refine ⟨?_, ?_, ?_, ?_⟩
      · unfold Page.WfBounds at hB ⊢
        dsimp only
        unfold PAGE_SIZE SLOT_ENTRY_SIZE HEADER_SIZE at *
        omega
      · intro i hi
        dsimp only at hi
        omega
      · intro i hi
        dsimp only at hi
        omega
      · intro i hi
        dsimp only at hi
        omega
    · rw [if_neg h2]
      dsimp only
      apply wfCore_seal
      have hsum := sumLen_le p hS hD
      have hfs : HEADER_SIZE ≤ p.freeStart ∧ p.freeStart ≤ p.freeEnd ∧
          p.freeEnd + SLOT_ENTRY_SIZE * p.slotCount ≤ PAGE_SIZE := ⟨hB.1, hB.2.1, hB.2.2.1⟩
      have hmod : (HEADER_SIZE + p.sumLen p.validSlots) % 65536 =
          HEADER_SIZE + p.sumLen p.validSlots := by
        apply Nat.mod_eq_of_lt
        unfold PAGE_SIZE SLOT_ENTRY_SIZE HEADER_SIZE at *
        omega
      refine ⟨?_, ?_, ?_, ?_⟩
      · unfold Page.WfBounds at hB ⊢
        dsimp only
        rw [hmod]
        unfold PAGE_SIZE SLOT_ENTRY_SIZE HEADER_SIZE at *
        omega
      · intro i hi hv
        dsimp only at hi hv ⊢
        rw [hmod]
        rcases hlk : (p.compactAssign p.validSlots 0).lookup i with _ | o
        · rw [compactSlots_none_lt p i hlk hi] at hv
          exact absurd (by decide : SlotEntry.zero.flags &&& SLOT_VALID = 0) hv
        · obtain ⟨_, hb1, hb2⟩ := compactAssign_bounds p p.validSlots 0 i o hlk
          rw [compactSlots_some p i o hlk]
          dsimp only
          exact ⟨by omega, by omega⟩
      · intro i hi j hj hcond
        dsimp only at hi hj hcond ⊢
        obtain ⟨hij, hvi, hvj⟩ := hcond
        rcases hlki : (p.compactAssign p.validSlots 0).lookup i with _ | oi
        · rw [compactSlots_none_lt p i hlki hi] at hvi
          exact absurd (by decide : SlotEntry.zero.flags &&& SLOT_VALID = 0) hvi
        · rcases hlkj : (p.compactAssign p.validSlots 0).lookup j with _ | oj
          · rw [compactSlots_none_lt p j hlkj hj] at hvj
            exact absurd (by decide : SlotEntry.zero.flags &&& SLOT_VALID = 0) hvj
          · rw [compactSlots_some p i oi hlki, compactSlots_some p j oj hlkj]
            dsimp only
            exact compactAssign_disjoint p p.validSlots 0 i oi j oj hlki hlkj hij
      · intro i hi hv
        dsimp only at hi hv ⊢
        rcases hlk : (p.compactAssign p.validSlots 0).lookup i with _ | o
        · rw [compactSlots_none_lt p i hlk hi] at hv
          exact absurd (by decide : SlotEntry.zero.flags &&& SLOT_VALID = 0) hv
        · rw [compactSlots_some p i o hlk] at hv ⊢
          intro k hk
          dsimp only at hk ⊢
          rw [compactCopy_read p p.validSlots 0 p.data i o hlk k hk]
          exact Nat.mod_lt _ (by decide)
/-! ### Reachable pages: sequences of page operations from a fresh page -/

/-- One page-level mutation: the operations named by the spec's invariant
section (insert, delete, update-in-place, mark-forwarded, compact). -/
inductive PageOp where
  | ins (src : Nat → Nat) (size : Nat)
  | del (s : Nat)
  | upd (s : Nat) (src : Nat → Nat) (size : Nat)
  | fwd (s target tslot : Nat)
  | compact

/-- Apply one page operation, keeping the resulting page. -/
def applyOp (p : Page) : PageOp → Page
  | .ins src size => (p.InsertTuple src size).1
  | .del s => (p.DeleteTuple s).1
  | .upd s src size => (p.UpdateTupleInPlace s src size).1
  | .fwd s target tslot => (p.MarkSlotForwarded s target tslot).1
  | .compact => p.CompactPage

/-- Run a sequence of page operations starting from a fresh page. -/
def runOps (ops : List PageOp) : Page :=
  ops.foldl applyOp Page.CreateNew

lemma wfCore_createNew : Page.CreateNew.WfCore := by
  unfold Page.CreateNew
  apply wfCore_seal
  refine ⟨?_, ?_, ?_, ?_⟩
  · exact ⟨by decide, by decide, by decide, Or.inl (by decide)⟩
  · intro i hi
    dsimp only at hi
    exact absurd hi (by omega)
  · intro i hi
    dsimp only at hi
    exact absurd hi (by omega)
  · intro i hi
    dsimp only at hi
    exact absurd hi (by omega)

lemma wfCore_applyOp (p : Page) (op : PageOp) (h : p.WfCore) : (applyOp p op).WfCore := by
  cases op with
  | ins src size => exact wfCore_insertTuple p src size h
  | del s => exact wfCore_deleteTuple p s h
  | upd s src size => exact wfCore_updateTuple p s src size h
  | fwd s target tslot => exact wfCore_markForwarded p s target tslot h
  | compact => exact wfCore_compactPage p h

lemma wfCore_foldl (p : Page) (h : p.WfCore) :
    ∀ ops : List PageOp, (ops.foldl applyOp p).WfCore := by
  intro ops
  induction ops generalizing p with
  | nil => exact h
  | cons op rest ih => exact ih (applyOp p op) (wfCore_applyOp p op h)

lemma wfCore_runOps (ops : List PageOp) : (runOps ops).WfCore :=
  wfCore_foldl Page.CreateNew wfCore_createNew ops

/-- C1 (counterexample): after insert, delete, compact — a compaction of a
page whose slots were all deleted — the code zeroes `slot_count` but leaves
`free_end` at `8184`, so `free_end = PAGE_SIZE - 8 * slot_count` fails,
contradicting the claim's "in particular" case. -/
theorem claim_C1_counterexample :
    (runOps [PageOp.ins (fun _ => 65) 2, PageOp.del 0, PageOp.compact]).slotCount = 0 ∧
    (runOps [PageOp.ins (fun _ => 65) 2, PageOp.del 0, PageOp.compact]).freeEnd ≠
      PAGE_SIZE - SLOT_ENTRY_SIZE *
        (runOps [PageOp.ins (fun _ => 65) 2, PageOp.del 0, PageOp.compact]).slotCount := by
  constructor
  · decide
  · decide

/-- C1 (amended): after any sequence of page operations from a fresh page,
`free_start ≤ free_end`, and either `free_end = PAGE_SIZE - 8 * slot_count`
or the page went through an all-deleted compaction, which zeroes
`slot_count` while merely leaving `free_end` somewhere at or below
`PAGE_SIZE`. -/
theorem claim_C1_amended (ops : List PageOp) :
    (runOps ops).freeStart ≤ (runOps ops).freeEnd ∧
    ((runOps ops).freeEnd = PAGE_SIZE - SLOT_ENTRY_SIZE * (runOps ops).slotCount ∨
      ((runOps ops).slotCount = 0 ∧ (runOps ops).freeEnd ≤ PAGE_SIZE)) := by
  obtain ⟨hB, -, -, -⟩ := wfCore_runOps ops
  obtain ⟨h1, h2, h3, h4⟩ := hB
  refine ⟨h2, ?_⟩
  rcases h4 with h4 | h4
  · exact Or.inl h4
  · exact Or.inr ⟨h4, by omega⟩
/-- Number of deleted (non-valid) entries in the slot directory — what
`deleted_tuple_count_` is meant to track. -/
def Page.deletedSlotsCount (p : Page) : Nat :=
  ((List.range p.slotCount).filter (fun i => (p.slots i).flags &&& SLOT_VALID = 0)).length

/-- A structurally well-formed page whose two inserted tuples survive a
delete of slot 0: the concrete instance used to witness C4. -/
def pageC4 : Page :=
  ((((Page.CreateNew.InsertTuple (fun _ => 65) 3).1).InsertTuple
      (fun _ => 66) 2).1.DeleteTuple 0).1

/-- C4: on a structurally sound page whose deleted-tuple counter matches the
directory, with at least one deleted and one valid slot, compaction zeroes
the deleted count and fragmented bytes, keeps `slot_count`, keeps every
previously valid slot valid at the same id with its length, and the bytes
read back from such a slot are unchanged. -/
theorem claim_C4 (p : Page) (hW : p.WfCore)
    (hcount : p.deletedCount = p.deletedSlotsCount)
    (hdel : ∃ i, i < p.slotCount ∧ (p.slots i).flags &&& SLOT_VALID = 0)
    (hval : ∃ i, i < p.slotCount ∧ (p.slots i).flags &&& SLOT_VALID ≠ 0) :
    (p.CompactPage).deletedCount = 0 ∧
    (p.CompactPage).fragmented = 0 ∧
    (p.CompactPage).slotCount = p.slotCount ∧
    ∀ i, i < p.slotCount → (p.slots i).flags &&& SLOT_VALID ≠ 0 →
      ((p.CompactPage).slots i).flags &&& SLOT_VALID ≠ 0 ∧
      ((p.CompactPage).slots i).length = (p.slots i).length ∧
      ∀ k, k < (p.slots i).length →
        (p.CompactPage).data (((p.CompactPage).slots i).offset + k) =
          p.data ((p.slots i).offset + k) := by
  obtain ⟨a, ha, hpa⟩ := hdel
  obtain ⟨b, hb, hpb⟩ := hval
  have hd1 : 0 < p.deletedSlotsCount := by
    unfold Page.deletedSlotsCount
    have hmem : a ∈ (List.range p.slotCount).filter
        (fun i => (p.slots i).flags &&& SLOT_VALID = 0) :=
      List.mem_filter.mpr ⟨List.mem_range.mpr ha, by simpa using hpa⟩
    exact List.length_pos.mpr (fun h => by simp [h] at hmem)
  have hd2 : p.deletedSlotsCount < p.slotCount := by
    unfold Page.deletedSlotsCount
    conv_rhs => rw [show p.slotCount = (List.range p.slotCount).length from
      (List.length_range p.slotCount).symm]
    rw [List.length_filter_lt_length_iff_exists]
    exact ⟨b, List.mem_range.mpr hb, by simpa using hpb⟩
  have h1 : ¬ p.deletedCount = 0 := by rw [hcount]; omega
  have h2 : ¬ p.slotCount = p.deletedCount := by rw [hcount]; omega
  unfold Page.CompactPage
  rw [if_neg h1, if_neg h2]
  dsimp only
  simp only [seal_deletedCount, seal_fragmented, seal_slotCount, seal_slots, seal_data]
  refine ⟨trivial, trivial, trivial, ?_⟩
  intro i hi hv
  have hmem : i ∈ p.validSlots := (validSlots_mem p i).mpr ⟨hi, hv⟩
  obtain ⟨o, ho⟩ := compactAssign_lookup_mem p p.validSlots 0 i hmem
  rw [compactSlots_some p i o ho]
  dsimp only
  refine ⟨hv, rfl, ?_⟩
  intro k hk
  rw [compactCopy_read p p.validSlots 0 p.data i o ho k hk]
  exact Nat.mod_eq_of_lt (hW.2.2.2 i hi hv k hk)

theorem claim_C4_witness :
    (pageC4.CompactPage).deletedCount = 0 ∧
    (pageC4.CompactPage).fragmented = 0 ∧
    (pageC4.CompactPage).slotCount = pageC4.slotCount ∧
    (((pageC4.CompactPage).slots 1).flags &&& SLOT_VALID ≠ 0 ∧
     ((pageC4.CompactPage).slots 1).length = (pageC4.slots 1).length ∧
     (pageC4.CompactPage).data (((pageC4.CompactPage).slots 1).offset + 0) =
       pageC4.data ((pageC4.slots 1).offset + 0)) := by
  obtain ⟨h1, h2, h3, h4⟩ :=
    claim_C4 pageC4 (by decide) (by decide) ⟨0, by decide⟩ ⟨1, by decide⟩
  have h5 := h4 1 (by decide) (by decide)
  exact ⟨h1, h2, h3, h5.1, h5.2.1, h5.2.2 0 (by decide)⟩
/-! ### C2: what the persisted checksum actually covers -/

/-- The checksum the claim describes: CRC32 of bytes 0..11, four zero bytes
in place of the checksum field, then every byte from the 16-byte persisted
header boundary up to `PAGE_SIZE` — i.e. including the runtime header
bytes 16..39. -/
def checksumClaim (p : Page) : Nat :=
  checksum.Finalize
    (checksum.Update p.byteAt (PAGE_SIZE - 16) 16
      (checksum.Update (fun _ => 0) 4 12
        (checksum.Update p.byteAt 12 0 checksum.INITIAL_CRC)))

lemma xor_mod_two_pow (a b n : Nat) : (a ^^^ b) % 2 ^ n = a % 2 ^ n ^^^ b % 2 ^ n := by
  apply Nat.eq_of_testBit_eq
  intro i
  simp only [Nat.testBit_mod_two_pow, Nat.testBit_xor]
  by_cases h : i < n <;> simp [h]

lemma shiftl8_mod (c : Nat) : (c <<< 8) % 4294967296 = (c % 16777216) * 256 := by
  rw [Nat.shiftLeft_eq, show (2:Nat) ^ 8 = 256 from rfl,
    show (4294967296:Nat) = 16777216 * 256 from rfl, Nat.mul_mod_mul_right]

lemma crcShift_lt (v : Nat) : checksum.crcShift v < 4294967296 := by
  unfold checksum.crcShift
  split <;> exact Nat.mod_lt _ (by decide)

lemma tableEntry_lt (i : Nat) : checksum.tableEntry i < 4294967296 := crcShift_lt _

lemma updateByte_lt (c b : Nat) : checksum.updateByte c b < 4294967296 := by
  unfold checksum.updateByte
  rw [show (4294967296:Nat) = 2 ^ 32 from rfl]
  exact Nat.xor_lt_two_pow
    (by rw [show (2:Nat)^32 = 4294967296 from rfl]; exact Nat.mod_lt _ (by decide))
    (by rw [show (2:Nat)^32 = 4294967296 from rfl]; exact tableEntry_lt _)

lemma shiftr24_lt (c : Nat) (hc : c < 4294967296) : c >>> 24 < 256 := by
  rw [Nat.shiftRight_eq_div_pow]
  omega

lemma xor_right_cancel (a b k : Nat) (h : a ^^^ k = b ^^^ k) : a = b := by
  have h2 := congrArg (fun x => x ^^^ k) h
  simpa [Nat.xor_assoc] using h2

set_option maxRecDepth 4000 in
lemma tableLow_nodup :
    ((List.range 256).map (fun i => checksum.tableEntry i % 256)).Nodup := by decide

lemma tableLow_inj (i j : Nat) (hi : i < 256) (hj : j < 256)
    (h : checksum.tableEntry i % 256 = checksum.tableEntry j % 256) : i = j :=
  List.inj_on_of_nodup_map tableLow_nodup
    (List.mem_range.mpr hi) (List.mem_range.mpr hj) h

lemma xor_mod_of_dvd (a t : Nat) (ha : a % 256 = 0) : (a ^^^ t) % 256 = t % 256 := by
  have hx := xor_mod_two_pow a t 8
  rw [show (2:Nat) ^ 8 = 256 from rfl] at hx
  rw [hx, ha, Nat.zero_xor]

lemma updateByte_low (c b : Nat) :
    checksum.updateByte c b % 256 =
      checksum.tableEntry (((c >>> 24) ^^^ b) % 256) % 256 := by
  unfold checksum.updateByte
  apply xor_mod_of_dvd
  rw [shiftl8_mod]
  exact Nat.mul_mod_left _ _

lemma updateByte_inj (b c1 c2 : Nat) (h1 : c1 < 4294967296) (h2 : c2 < 4294967296)
    (hb : b < 256) (h : checksum.updateByte c1 b = checksum.updateByte c2 b) : c1 = c2 := by
  have hx1 : (c1 >>> 24) ^^^ b < 256 := by
    rw [show (256:Nat) = 2 ^ 8 from rfl]
    exact Nat.xor_lt_two_pow (by rw [show (2:Nat)^8 = 256 from rfl]; exact shiftr24_lt c1 h1)
      (by rw [show (2:Nat)^8 = 256 from rfl]; exact hb)
  have hx2 : (c2 >>> 24) ^^^ b < 256 := by
    rw [show (256:Nat) = 2 ^ 8 from rfl]
    exact Nat.xor_lt_two_pow (by rw [show (2:Nat)^8 = 256 from rfl]; exact shiftr24_lt c2 h2)
      (by rw [show (2:Nat)^8 = 256 from rfl]; exact hb)
  have hlow := congrArg (fun x => x % 256) h
  simp only [updateByte_low] at hlow
  have hidx : ((c1 >>> 24) ^^^ b) % 256 = ((c2 >>> 24) ^^^ b) % 256 :=
    tableLow_inj _ _ (Nat.mod_lt _ (by decide)) (Nat.mod_lt _ (by decide)) hlow
  rw [Nat.mod_eq_of_lt hx1, Nat.mod_eq_of_lt hx2] at hidx
  have hhi : c1 >>> 24 = c2 >>> 24 := xor_right_cancel _ _ _ hidx
  unfold checksum.updateByte at h
  rw [Nat.mod_eq_of_lt hx1, Nat.mod_eq_of_lt hx2, hidx] at h
  have hsh := xor_right_cancel _ _ _ h
  rw [shiftl8_mod, shiftl8_mod] at hsh
  have hmod : c1 % 16777216 = c2 % 16777216 := by omega
  rw [Nat.shiftRight_eq_div_pow, Nat.shiftRight_eq_div_pow,
    show (2:Nat) ^ 24 = 16777216 from rfl] at hhi
  omega

lemma Update_lt (f : Nat → Nat) : ∀ (n s c : Nat), c < 4294967296 →
    checksum.Update f n s c < 4294967296 := by
  intro n
  induction n with
  | zero => intro s c hc; exact hc
  | succ m ih => intro s c _; exact ih (s + 1) _ (updateByte_lt _ _)

lemma Update_inj (f : Nat → Nat) (hf : ∀ k, f k < 256) :
    ∀ (n s c1 c2 : Nat), c1 < 4294967296 → c2 < 4294967296 →
      checksum.Update f n s c1 = checksum.Update f n s c2 → c1 = c2 := by
  intro n
  induction n with
  | zero => intro s c1 c2 _ _ h; exact h
  | succ m ih =>
    intro s c1 c2 h1 h2 h
    exact updateByte_inj (f s) c1 c2 h1 h2 (hf s)
      (ih (s + 1) _ _ (updateByte_lt _ _) (updateByte_lt _ _) h)

lemma Update_split (f : Nat → Nat) (m : Nat) :
    ∀ (n s c : Nat),
      checksum.Update f (m + n) s c =
        checksum.Update f n (s + m) (checksum.Update f m s c) := by
  induction m with
  | zero =>
    intro n s c
    rw [Nat.zero_add, Nat.add_zero]
    rfl
  | succ k ih =>
    intro n s c
    rw [show k + 1 + n = k + n + 1 from by omega]
    show checksum.Update f (k + n) (s + 1) (checksum.updateByte c (f s)) = _
    rw [ih n (s + 1) (checksum.updateByte c (f s))]
    rw [show s + (k + 1) = s + 1 + k from by omega]
    rfl

lemma Finalize_inj (c1 c2 : Nat) (h : checksum.Finalize c1 = checksum.Finalize c2) :
    c1 = c2 := xor_right_cancel _ _ _ h

lemma SlotEntry.byte_lt (e : SlotEntry) (k : Nat) : e.byte k < 256 := by
  unfold SlotEntry.byte
  split_ifs <;> omega

lemma byteAt_lt (p : Page) (o : Nat) : p.byteAt o < 256 := by
  unfold Page.byteAt
  by_cases h1 : o < 2
  · rw [if_pos h1]; unfold le16; omega
  rw [if_neg h1]
  by_cases h2 : o < 4
  · rw [if_pos h2]; unfold le16; omega
  rw [if_neg h2]
  by_cases h3 : o < 6
  · rw [if_pos h3]; unfold le16; omega
  rw [if_neg h3]
  by_cases h4 : o < 8
  · rw [if_pos h4]; unfold le16; omega
  rw [if_neg h4]
  by_cases h5 : o < 10
  · rw [if_pos h5]; unfold le16; omega
  rw [if_neg h5]
  by_cases h6 : o = 10
  · rw [if_pos h6]; omega
  rw [if_neg h6]
  by_cases h7 : o = 11
  · rw [if_pos h7]; omega
  rw [if_neg h7]
  by_cases h8 : o < 16
  · rw [if_pos h8]; omega
  rw [if_neg h8]
  by_cases h9 : o < 18
  · rw [if_pos h9]; unfold le16; omega
  rw [if_neg h9]
  by_cases h10 : o < 24
  · rw [if_pos h10]; omega
  rw [if_neg h10]
  by_cases h11 : o < 32
  · rw [if_pos h11]; omega
  rw [if_neg h11]
  by_cases h12 : o = 32
  · rw [if_pos h12]
    by_cases hd : p.isDirty
    · rw [if_pos hd]; omega
    · rw [if_neg hd]; omega
  rw [if_neg h12]
  by_cases h13 : o < 40
  · rw [if_pos h13]; omega
  rw [if_neg h13]
  by_cases h14 : PAGE_SIZE - SLOT_ENTRY_SIZE * p.slotHigh ≤ o ∧ o < PAGE_SIZE
  · rw [if_pos h14]; exact SlotEntry.byte_lt _ _
  · rw [if_neg h14]; omega
lemma checksum_ok_of_shape (p r : Page) (hsh : r = p ∨ ∃ q, r = Page.seal q)
    (h : p.checksum = p.ComputeChecksum) : r.checksum = r.ComputeChecksum := by
  rcases hsh with rfl | ⟨q, rfl⟩
  · exact h
  · exact seal_checksum_ok q

lemma checksum_ok_applyOp (p : Page) (op : PageOp)
    (h : p.checksum = p.ComputeChecksum) :
    (applyOp p op).checksum = (applyOp p op).ComputeChecksum := by
  cases op with
  | ins src size => exact checksum_ok_of_shape p _ (insertTuple_shape p src size) h
  | del s => exact checksum_ok_of_shape p _ (deleteTuple_shape p s) h
  | upd s src size => exact checksum_ok_of_shape p _ (updateTuple_shape p s src size) h
  | fwd s target tslot => exact checksum_ok_of_shape p _ (markForwarded_shape p s target tslot) h
  | compact => exact checksum_ok_of_shape p _ (compactPage_shape p) h

lemma checksum_ok_foldl :
    ∀ (ops : List PageOp) (p : Page), p.checksum = p.ComputeChecksum →
      (ops.foldl applyOp p).checksum = (ops.foldl applyOp p).ComputeChecksum := by
  intro ops
  induction ops with
  | nil => intro p h; exact h
  | cons op rest ih => intro p h; exact ih (applyOp p op) (checksum_ok_applyOp p op h)

set_option maxRecDepth 40000 in
set_option maxHeartbeats 1000000 in
/-- C2 (counterexample): on a freshly created page the stored checksum does
not equal the CRC the claim describes — the code skips the runtime header
bytes 16..39 (here the dirty-flag byte at offset 32 is 1), while the claim's
coverage includes them. -/
theorem claim_C2_counterexample :
    checksumClaim Page.CreateNew ≠ Page.CreateNew.checksum := by
  intro h
  have hck : Page.CreateNew.checksum = Page.CreateNew.ComputeChecksum := seal_checksum_ok _
  rw [hck] at h
  unfold checksumClaim Page.ComputeChecksum at h
  rw [show PAGE_SIZE - 16 = 24 + 8152 from rfl] at h
  rw [Update_split Page.CreateNew.byteAt 24 8152 16 _] at h
  rw [show (16 + 24 : Nat) = 40 from rfl] at h
  rw [show PAGE_SIZE - HEADER_SIZE = 8152 from rfl, show HEADER_SIZE = 40 from rfl] at h
  have hinj := Update_inj Page.CreateNew.byteAt (byteAt_lt _) 8152 40 _ _
    (Update_lt _ 24 16 _ (Update_lt _ 4 12 _ (Update_lt _ 12 0 _ (by decide))))
    (Update_lt _ 4 12 _ (Update_lt _ 12 0 _ (by decide)))
    (Finalize_inj _ _ h)
  exact absurd hinj (by decide)

/-- C2 (amended): for every page reachable by page operations from a fresh
page, the stored checksum equals the code's `ComputeChecksum` — the CRC32 of
bytes 0..11, four zero bytes in place of the checksum field, then bytes
40..8191; the runtime header bytes 16..39 are *excluded* from coverage. -/
theorem claim_C2_amended (ops : List PageOp) :
    (runOps ops).checksum = (runOps ops).ComputeChecksum :=
  checksum_ok_foldl ops Page.CreateNew (seal_checksum_ok _)
/-! ### C9: coordinator-level insert / get round trip -/

/-- Every cache entry is keyed by its page's own id. -/
def CacheWf (c : List (Nat × Page)) : Prop :=
  ∀ kp ∈ c, (Prod.snd kp).pageId = kp.1

/-- Every persisted page is keyed by its own id. -/
def DiskWf (d : DiskManager) : Prop :=
  ∀ pid pg, d.store pid = some pg → pg.pageId = pid

/-- The coordinator-state invariant claim C9 assumes: cache and disk map each
page id to a page carrying that id. -/
def PMWf (S : PageManager) : Prop := CacheWf S.cache ∧ DiskWf S.disk

lemma cacheLookup_wf : ∀ (c : List (Nat × Page)) (pid : Nat) (pg : Page),
    CacheWf c → cacheLookup c pid = some pg → pg.pageId = pid := by
  intro c
  induction c with
  | nil => intro pid pg _ h; exact absurd h (by simp [cacheLookup])
  | cons kp rest ih =>
    obtain ⟨k, p⟩ := kp
    intro pid pg hwf h
    unfold cacheLookup at h
    by_cases hk : k = pid
    · rw [if_pos hk] at h
      have hp := Option.some.inj h
      subst hp
      rw [← hk]
      exact hwf (k, p) (List.mem_cons_self _ _)
    · rw [if_neg hk] at h
      exact ih pid pg (fun kp hm => hwf kp (List.mem_cons_of_mem _ hm)) h

lemma cacheStore_mem : ∀ (c : List (Nat × Page)) (pid : Nat) (q : Page) (kp : Nat × Page),
    kp ∈ cacheStore c pid q → kp = (pid, q) ∨ kp ∈ c := by
  intro c
  induction c with
  | nil =>
    intro pid q kp h
    unfold cacheStore at h
    rcases List.mem_singleton.mp h with h1
    exact Or.inl h1
  | cons kv rest ih =>
    obtain ⟨k, p⟩ := kv
    intro pid q kp h
    unfold cacheStore at h
    by_cases hk : k = pid
    · rw [if_pos hk] at h
      rcases List.mem_cons.mp h with h1 | h1
      · exact Or.inl h1
      · exact Or.inr (List.mem_cons_of_mem _ h1)
    · rw [if_neg hk] at h
      rcases List.mem_cons.mp h with h1 | h1
      · exact Or.inr (h1 ▸ List.mem_cons_self _ _)
      · rcases ih pid q kp h1 with h2 | h2
        · exact Or.inl h2
        · exact Or.inr (List.mem_cons_of_mem _ h2)

lemma cacheWf_store (c : List (Nat × Page)) (pid : Nat) (q : Page)
    (h : CacheWf c) (hq : q.pageId = pid) : CacheWf (cacheStore c pid q) := by
  intro kp hm
  rcases cacheStore_mem c pid q kp hm with h1 | h1
  · subst h1; exact hq
  · exact h kp h1

lemma cacheErase_mem : ∀ (c : List (Nat × Page)) (pid : Nat) (kp : Nat × Page),
    kp ∈ cacheErase c pid → kp ∈ c := by
  intro c
  induction c with
  | nil => intro pid kp h; exact absurd h (List.not_mem_nil kp)
  | cons kv rest ih =>
    obtain ⟨k, p⟩ := kv
    intro pid kp h
    unfold cacheErase at h
    by_cases hk : k = pid
    · rw [if_pos hk] at h
      exact List.mem_cons_of_mem _ h
    · rw [if_neg hk] at h
      rcases List.mem_cons.mp h with h1 | h1
      · exact h1 ▸ List.mem_cons_self _ _
      · exact List.mem_cons_of_mem _ (ih pid kp h1)

lemma cacheWf_erase (c : List (Nat × Page)) (pid : Nat) (h : CacheWf c) :
    CacheWf (cacheErase c pid) :=
  fun kp hm => h kp (cacheErase_mem c pid kp hm)

lemma flushPage_wf (S : PageManager) (pid : Nat) (h : PMWf S) :
    PMWf (S.FlushPage pid) := by
  obtain ⟨hc, hd⟩ := h
  unfold PageManager.FlushPage
  rcases hl : cacheLookup S.cache pid with _ | p
  · exact ⟨hc, hd⟩
  · dsimp only
    by_cases hdirty : p.isDirty
    · rw [if_pos hdirty]
      have hpid : p.pageId = pid := cacheLookup_wf S.cache pid p hc hl
      have hqid : (Page.seal { p.seal with deletedCount := 0, fragmented := 0, isDirty := false }).pageId = pid := by
        rw [seal_pageId]
        dsimp only
        rw [seal_pageId]
        exact hpid
      constructor
      · exact cacheWf_store _ _ _ hc hqid
      · intro pid' pg hst
        dsimp only at hst
        by_cases hp' : pid' = pid
        · rw [if_pos hp'] at hst
          have := Option.some.inj hst
          subst this
          rw [hqid, hp']
        · rw [if_neg hp'] at hst
          exact hd pid' pg hst
    · rw [if_neg hdirty]
      exact ⟨hc, hd⟩

lemma flushPage_next (S : PageManager) (pid : Nat) :
    (S.FlushPage pid).disk.next = S.disk.next := by
  unfold PageManager.FlushPage
  rcases hl : cacheLookup S.cache pid with _ | p
  · rfl
  · dsimp only
    by_cases hdirty : p.isDirty
    · rw [if_pos hdirty]
    · rw [if_neg hdirty]

lemma evict_wf (S : PageManager) (h : PMWf S) : PMWf S.EvictPageIfNeeded := by
  obtain ⟨hc, hd⟩ := h
  unfold PageManager.EvictPageIfNeeded
  by_cases hlen : S.cache.length < MAX_CACHE_SIZE
  · rw [if_pos hlen]; exact ⟨hc, hd⟩
  · rw [if_neg hlen]
    rcases hf : findClean S.cache with _ | pid
    · rcases hm : S.cache with _ | ⟨⟨pid, p⟩, rest⟩
      · exact ⟨hc, hd⟩
      · dsimp only
        have hfl := flushPage_wf S pid ⟨hc, hd⟩
        exact ⟨cacheWf_erase _ _ hfl.1, hfl.2⟩
    · exact ⟨cacheWf_erase _ _ hc, hd⟩

lemma evict_next (S : PageManager) : S.EvictPageIfNeeded.disk.next = S.disk.next := by
  unfold PageManager.EvictPageIfNeeded
  by_cases hlen : S.cache.length < MAX_CACHE_SIZE
  · rw [if_pos hlen]
  · rw [if_neg hlen]
    rcases hf : findClean S.cache with _ | pid
    · rcases hm : S.cache with _ | ⟨⟨pid, p⟩, rest⟩
      · rfl
      · dsimp only
        exact flushPage_next S pid
    · rfl

lemma readPage_pageId (d : DiskManager) (pid : Nat) (pg : Page) (hd : DiskWf d)
    (h : d.ReadPage pid = some pg) : pg.pageId = pid := by
  unfold DiskManager.ReadPage at h
  rcases hst : d.store pid with _ | q
  · rw [hst] at h; exact absurd h (by simp)
  · rw [hst] at h
    dsimp only at h
    by_cases hv : (q.readReset).VerifyChecksum
    · rw [if_pos hv] at h
      have := Option.some.inj h
      subst this
      exact hd pid q hst
    · rw [if_neg hv] at h
      exact absurd h (by simp)

lemma getPage_wf (S : PageManager) (pid : Nat) (h : PMWf S) :
    PMWf (S.GetPage pid).1 ∧ (S.GetPage pid).1.disk.next = S.disk.next ∧
      ∀ pg, (S.GetPage pid).2 = some pg → pg.pageId = pid := by
  unfold PageManager.GetPage
  rcases hl : cacheLookup S.cache pid with _ | p
  · rcases hr : S.disk.ReadPage pid with _ | pg
    · exact ⟨h, rfl, fun pg hpg => absurd hpg (by simp)⟩
    · dsimp only
      have hev := evict_wf S h
      have hid : pg.pageId = pid := readPage_pageId S.disk pid pg h.2 hr
      refine ⟨⟨cacheWf_store _ _ _ hev.1 hid, hev.2⟩, evict_next S, ?_⟩
      intro pg' hpg'
      have := Option.some.inj hpg'
      subst this
      exact hid
  · refine ⟨h, rfl, ?_⟩
    intro pg hpg
    have := Option.some.inj hpg
    subst this
    exact cacheLookup_wf S.cache pid p h.1 hl
lemma insertTuple_pageId (p : Page) (src : Nat → Nat) (size : Nat) :
    ((p.InsertTuple src size).1).pageId = p.pageId := by
  unfold Page.InsertTuple
  by_cases h0 : size = 0
  · rw [if_pos h0]
  · rw [if_neg h0]
    rcases hfd : p.FindDeletedSlot with _ | s
    · dsimp only
      by_cases ha : p.GetAvailableFreeSpace < size + SLOT_ENTRY_SIZE
      · rw [if_pos ha]
      · rw [if_neg ha]
        by_cases hr : (p.AddSlot p.freeStart size).2 = INVALID_SLOT_ID
        · rw [if_pos hr]
        · rw [if_neg hr]
          dsimp only
          rw [seal_pageId]
          unfold Page.AddSlot
          by_cases hg : PAGE_SIZE - (p.slotCount + 1) * SLOT_ENTRY_SIZE ≤ p.freeStart
          · rw [if_pos hg]
          · rw [if_neg hg]
    · dsimp only
      by_cases ha : p.GetAvailableFreeSpace < size
      · rw [if_pos ha]
      · rw [if_neg ha]
        dsimp only
        rw [seal_pageId]

lemma compactPage_pageId (p : Page) : (p.CompactPage).pageId = p.pageId := by
  unfold Page.CompactPage
  by_cases h1 : p.deletedCount = 0
  · rw [if_pos h1]
  · rw [if_neg h1]
    by_cases h2 : p.slotCount = p.deletedCount
    · rw [if_pos h2]
      rw [seal_pageId]
    · rw [if_neg h2]
      dsimp only
      rw [seal_pageId]

lemma insertTuple_success (p : Page) (src : Nat → Nat) (size : Nat)
    (h : (p.InsertTuple src size).2 ≠ INVALID_SLOT_ID) :
    (p.InsertTuple src size).2 < ((p.InsertTuple src size).1).slotCount ∧
    (((p.InsertTuple src size).1).slots ((p.InsertTuple src size).2)).flags = SLOT_VALID ∧
    (((p.InsertTuple src size).1).slots ((p.InsertTuple src size).2)).length = size ∧
    ∀ k, k < size →
      ((p.InsertTuple src size).1).data
        ((((p.InsertTuple src size).1).slots ((p.InsertTuple src size).2)).offset + k) =
        src k % 256 := by
  unfold Page.InsertTuple
  by_cases h0 : size = 0
  · rw [if_pos h0]
    unfold Page.InsertTuple at h
    rw [if_pos h0] at h
    exact absurd rfl h
  rw [if_neg h0]
  unfold Page.InsertTuple at h
  rw [if_neg h0] at h
  rcases hfd : p.FindDeletedSlot with _ | s
  · rw [hfd] at h
    dsimp only at h ⊢
    by_cases ha : p.GetAvailableFreeSpace < size + SLOT_ENTRY_SIZE
    · rw [if_pos ha] at h
      exact absurd rfl h
    rw [if_neg ha] at h ⊢
    by_cases hr : (p.AddSlot p.freeStart size).2 = INVALID_SLOT_ID
    · rw [if_pos hr] at h
      exact absurd rfl h
    rw [if_neg hr] at h ⊢
    dsimp only
    unfold Page.AddSlot at hr ⊢
    by_cases hg : PAGE_SIZE - (p.slotCount + 1) * SLOT_ENTRY_SIZE ≤ p.freeStart
    · rw [if_pos hg] at hr
      exact absurd rfl hr
    rw [if_neg hg]
    dsimp only
    rw [seal_slotCount, seal_slots, seal_data]
    dsimp only
    rw [setSlot_same]
    refine ⟨by omega, rfl, rfl, ?_⟩
    intro k hk
    dsimp only
    exact writeBytes_in _ _ _ _ _ hk
  · rw [hfd] at h
    dsimp only at h ⊢
    by_cases ha : p.GetAvailableFreeSpace < size
    · rw [if_pos ha] at h
      exact absurd rfl h
    rw [if_neg ha] at h ⊢
    dsimp only
    rw [seal_slotCount, seal_slots, seal_data]
    dsimp only
    rw [setSlot_same]
    have hs := findDeletedSlot_lt p s hfd
    refine ⟨hs, rfl, rfl, ?_⟩
    intro k hk
    dsimp only
    exact writeBytes_in _ _ _ _ _ hk
lemma followChain_self (q : Page) (s : Nat) (h1 : s < q.slotCount)
    (h2 : (q.slots s).flags = SLOT_VALID) :
    q.FollowForwardingChain s 10 = (q.pageId, s) := by
  unfold Page.FollowForwardingChain
  rw [if_neg (by omega)]
  unfold Page.chainGo
  rw [if_neg (by simp)]
  rw [if_neg (by simp)]
  rw [if_neg (by omega)]
  dsimp only
  rw [if_neg (by rw [h2]; decide)]
  rw [if_pos (by rw [h2]; decide)]

lemma updateFSM_cache (S : PageManager) (pid : Nat) (p : Page) :
    (S.UpdateFSM pid p).cache = S.cache := rfl

lemma updateFSM_wf (S : PageManager) (pid : Nat) (p : Page) (h : PMWf S) :
    PMWf (S.UpdateFSM pid p) := h

lemma allocate_snd (S : PageManager) : (S.AllocateNewPage).2 = S.disk.next := rfl

lemma allocate_next (S : PageManager) :
    (S.AllocateNewPage).1.disk.next = S.disk.next + 1 := by
  unfold PageManager.AllocateNewPage PageManager.UpdateFSM DiskManager.AllocatePage
  dsimp only
  exact evict_next _

lemma allocate_wf (S : PageManager) (h : PMWf S) (hn : S.disk.next < 65536) :
    PMWf (S.AllocateNewPage).1 := by
  unfold PageManager.AllocateNewPage DiskManager.AllocatePage
  dsimp only
  have hev : PMWf (PageManager.EvictPageIfNeeded
      { S with disk := { S.disk with next := S.disk.next + 1 } }) :=
    evict_wf _ ⟨h.1, h.2⟩
  refine ⟨?_, hev.2⟩
  apply cacheWf_store _ _ _ hev.1
  show S.disk.next % 65536 = S.disk.next
  omega
/-- What a successful pass through the coordinator insert loop guarantees:
the returned page id is nonzero and the cache holds a page, keyed and
stamped with that id, whose returned slot is valid, non-forwarded, has the
inserted length and holds the inserted bytes. -/
def InsPost (S' : PageManager) (pid slot : Nat) (src : Nat → Nat) (size : Nat) : Prop :=
  pid ≠ 0 ∧ ∃ q, cacheLookup S'.cache pid = some q ∧ q.pageId = pid ∧
    slot < q.slotCount ∧ (q.slots slot).flags = SLOT_VALID ∧
    (q.slots slot).length = size ∧
    ∀ k, k < size → q.data ((q.slots slot).offset + k) = src k % 256

lemma cacheLookup_store_same : ∀ (c : List (Nat × Page)) (pid : Nat) (q : Page),
    cacheLookup (cacheStore c pid q) pid = some q := by
  intro c
  induction c with
  | nil =>
    intro pid q
    unfold cacheStore cacheLookup
    rw [if_pos rfl]
  | cons kv rest ih =>
    obtain ⟨k, p⟩ := kv
    intro pid q
    unfold cacheStore
    by_cases hk : k = pid
    · rw [if_pos hk]
      unfold cacheLookup
      rw [if_pos rfl]
    · rw [if_neg hk]
      unfold cacheLookup
      rw [if_neg hk]
      exact ih pid q

lemma insertGo_success (src : Nat → Nat) (size : Nat) :
    ∀ (fuel : Nat) (S S' : PageManager) (pid slot : Nat),
      PMWf S → 0 < S.disk.next → S.disk.next + fuel ≤ 65536 →
      PageManager.insertGo src size fuel S = (S', (pid, slot)) →
      slot ≠ INVALID_SLOT_ID → InsPost S' pid slot src size := by
  intro fuel
  induction fuel with
  | zero =>
    intro S S' pid slot _ _ _ hE hs
    unfold PageManager.insertGo at hE
    injection hE with h1 h2
    injection h2 with h3 h4
    exact absurd h4.symm hs
  | succ fuel ih =>
    intro S S' pid slot hWf hn1 hn2 hE hs
    unfold PageManager.insertGo at hE
    dsimp only at hE
    by_cases hp : S.fsm.FindPageWithSpace (size + SLOT_ENTRY_SIZE) = 0
    · rw [if_pos hp] at hE
      rcases hAP : S.AllocateNewPage with ⟨T, tpid⟩
      have hTwf : PMWf T := by
        have := allocate_wf S hWf (by omega)
        rw [hAP] at this
        exact this
      have hTnext : T.disk.next = S.disk.next + 1 := by
        have := allocate_next S
        rw [hAP] at this
        exact this
      have htpid : tpid = S.disk.next := by
        have := allocate_snd S
        rw [hAP] at this
        exact this
      have htz : tpid ≠ 0 := by omega
      rw [hAP] at hE
      dsimp only at hE
      have hGP := getPage_wf T tpid hTwf
      rcases hG : T.GetPage tpid with ⟨S2, opg⟩
      rw [hG] at hE hGP
      dsimp only at hGP
      obtain ⟨hS2wf, hS2next, hpg⟩ := hGP
      rcases opg with _ | pg
      · dsimp only at hE
        injection hE with h1 h2
        injection h2 with h3 h4
        exact absurd h4.symm hs
      · dsimp only at hE
        have hpgid : pg.pageId = tpid := hpg pg rfl
        by_cases hr : (pg.InsertTuple src size).2 ≠ INVALID_SLOT_ID
        · rw [if_pos hr] at hE
          injection hE with h1 h2
          injection h2 with h3 h4
          subst h1 h3 h4
          refine ⟨htz, (pg.InsertTuple src size).1, ?_, ?_,
            insertTuple_success pg src size hr⟩
          · rw [updateFSM_cache]
            exact cacheLookup_store_same _ _ _
          · rw [insertTuple_pageId]
            exact hpgid
        · rw [if_neg hr] at hE
          by_cases hc : pg.ShouldCompact
          · rw [if_pos hc] at hE
            by_cases hr2 : ((pg.CompactPage).InsertTuple src size).2 ≠ INVALID_SLOT_ID
            · rw [if_pos hr2] at hE
              injection hE with h1 h2
              injection h2 with h3 h4
              subst h1 h3 h4
              refine ⟨htz, ((pg.CompactPage).InsertTuple src size).1, ?_, ?_,
                insertTuple_success (pg.CompactPage) src size hr2⟩
              · rw [updateFSM_cache]
                exact cacheLookup_store_same _ _ _
              · rw [insertTuple_pageId, compactPage_pageId]
                exact hpgid
            · rw [if_neg hr2] at hE
              refine ih _ S' pid slot ?_ ?_ ?_ hE hs
              · exact ⟨cacheWf_store _ _ _ hS2wf.1
                  (by rw [compactPage_pageId]; exact hpgid), hS2wf.2⟩
              · show 0 < S2.disk.next
                omega
              · show S2.disk.next + fuel ≤ 65536
                omega
          · rw [if_neg hc] at hE
            refine ih _ S' pid slot ?_ ?_ ?_ hE hs
            · exact ⟨hS2wf.1, hS2wf.2⟩
            · show 0 < S2.disk.next
              omega
            · show S2.disk.next + fuel ≤ 65536
              omega
    · rw [if_neg hp] at hE
      dsimp only at hE
      have hGP := getPage_wf S (S.fsm.FindPageWithSpace (size + SLOT_ENTRY_SIZE)) hWf
      rcases hG : S.GetPage (S.fsm.FindPageWithSpace (size + SLOT_ENTRY_SIZE)) with ⟨S2, opg⟩
      rw [hG] at hE hGP
      dsimp only at hGP
      obtain ⟨hS2wf, hS2next, hpg⟩ := hGP
      rcases opg with _ | pg
      · dsimp only at hE
        injection hE with h1 h2
        injection h2 with h3 h4
        exact absurd h4.symm hs
      · dsimp only at hE
        have hpgid : pg.pageId = S.fsm.FindPageWithSpace (size + SLOT_ENTRY_SIZE) :=
          hpg pg rfl
        by_cases hr : (pg.InsertTuple src size).2 ≠ INVALID_SLOT_ID
        · rw [if_pos hr] at hE
          injection hE with h1 h2
          injection h2 with h3 h4
          subst h1 h3 h4
          refine ⟨hp, (pg.InsertTuple src size).1, ?_, ?_,
            insertTuple_success pg src size hr⟩
          · rw [updateFSM_cache]
            exact cacheLookup_store_same _ _ _
          · rw [insertTuple_pageId]
            exact hpgid
        · rw [if_neg hr] at hE
          by_cases hc : pg.ShouldCompact
          · rw [if_pos hc] at hE
            by_cases hr2 : ((pg.CompactPage).InsertTuple src size).2 ≠ INVALID_SLOT_ID
            · rw [if_pos hr2] at hE
              injection hE with h1 h2
              injection h2 with h3 h4
              subst h1 h3 h4
              refine ⟨hp, ((pg.CompactPage).InsertTuple src size).1, ?_, ?_,
                insertTuple_success (pg.CompactPage) src size hr2⟩
              · rw [updateFSM_cache]
                exact cacheLookup_store_same _ _ _
              · rw [insertTuple_pageId, compactPage_pageId]
                exact hpgid
            · rw [if_neg hr2] at hE
              refine ih _ S' pid slot ?_ ?_ ?_ hE hs
              · exact ⟨cacheWf_store _ _ _ hS2wf.1
                  (by rw [compactPage_pageId]; exact hpgid), hS2wf.2⟩
              · show 0 < S2.disk.next
                omega
              · show S2.disk.next + fuel ≤ 65536
                omega
          · rw [if_neg hc] at hE
            refine ih _ S' pid slot ?_ ?_ ?_ hE hs
            · exact ⟨hS2wf.1, hS2wf.2⟩
            · show 0 < S2.disk.next
              omega
            · show S2.disk.next + fuel ≤ 65536
              omega
/-- C9: on a well-formed coordinator state, a successful coordinator-level
insert of `size` bytes followed immediately by a `GetTuple` of the returned
tuple id into a buffer of capacity at least `size` succeeds (error code 0)
and the first `size` buffer bytes equal the inserted bytes verbatim. -/
theorem claim_C9 (S : PageManager) (src : Nat → Nat) (size bufSize : Nat) (buf : Nat → Nat)
    (hWf : PMWf S) (hn1 : 0 < S.disk.next) (hn2 : S.disk.next + 3 ≤ 65536)
    (hsrc : ∀ k, src k < 256) (hbuf : size ≤ bufSize)
    (hins : (S.InsertTuple src size).2.2 ≠ INVALID_SLOT_ID) :
    ((S.InsertTuple src size).1.GetTuple (S.InsertTuple src size).2 buf bufSize).2.1 = 0 ∧
    ∀ k, k < size →
      ((S.InsertTuple src size).1.GetTuple (S.InsertTuple src size).2 buf bufSize).2.2 k =
        src k := by
  unfold PageManager.InsertTuple at hins ⊢
  by_cases h0 : size = 0
  · rw [if_pos h0] at hins
    exact absurd rfl hins
  rw [if_neg h0] at hins ⊢
  by_cases h1 : PAGE_SIZE - HEADER_SIZE - SLOT_ENTRY_SIZE < size
  · rw [if_pos h1] at hins
    exact absurd rfl hins
  rw [if_neg h1] at hins ⊢
  rcases hE : PageManager.insertGo src size 3 S with ⟨S', tid⟩
  obtain ⟨pid, slot⟩ := tid
  rw [hE] at hins
  dsimp only at hins ⊢
  obtain ⟨hpid0, q, hlook, hqid, hslt, hflags, hlen, hbytes⟩ :=
    insertGo_success src size 3 S S' pid slot hWf hn1 hn2 hE hins
  have hGP : S'.GetPage pid = (S', some q) := by
    unfold PageManager.GetPage
    rw [hlook]
  have hFF : S'.FollowForwardingChainFull (pid, slot) = (S', (pid, slot)) := by
    unfold PageManager.FollowForwardingChainFull
    rw [if_neg (by push_neg; exact ⟨hpid0, hins⟩)]
    dsimp only
    rw [hGP]
    dsimp only
    rw [if_neg (by omega)]
    rw [followChain_self q slot hslt hflags, hqid]
  unfold PageManager.GetTuple
  rw [if_neg (by omega : ¬ bufSize = 0)]
  rw [hFF]
  dsimp only
  rw [if_neg (fun hcc => hpid0 (congrArg Prod.fst hcc))]
  rw [hGP]
  dsimp only
  unfold PageManager.GetTupleFromSlot
  have hvalid : q.IsSlotValid slot = true := by
    unfold Page.IsSlotValid
    rw [hflags]
    simp [hslt]
    decide
  rw [if_neg (by simp [hvalid])]
  dsimp only
  rw [if_neg (by rw [hlen]; omega : ¬ bufSize < (q.slots slot).length)]
  refine ⟨rfl, ?_⟩
  intro k hk
  have hk' : k < (q.slots slot).length := by rw [hlen]; exact hk
  have hw := writeBytes_in buf 0 (fun j => q.data ((q.slots slot).offset + j))
    ((q.slots slot).length) k hk'
  rw [Nat.zero_add] at hw
  by_cases hsz : (q.slots slot).length < bufSize
  · rw [if_pos hsz]
    dsimp only
    rw [if_neg (by rw [hlen]; omega)]
    rw [hw]
    dsimp only
    rw [hbytes k hk]
    have := hsrc k
    omega
  · rw [if_neg hsz]
    dsimp only
    rw [hw]
    dsimp only
    rw [hbytes k hk]
    have := hsrc k
    omega

/-- The empty coordinator state: no cached pages, a fresh one-past-zero block
device, an empty free-space map. -/
def pmC9 : PageManager := { cache := [], disk := DiskManager.fresh, fsm := FreeSpaceMap.empty }

theorem claim_C9_witness :
    ((pmC9.InsertTuple (fun _ => 65) 2).1.GetTuple (pmC9.InsertTuple (fun _ => 65) 2).2
        (fun _ => 0) 2).2.1 = 0 ∧
    ((pmC9.InsertTuple (fun _ => 65) 2).1.GetTuple (pmC9.InsertTuple (fun _ => 65) 2).2
        (fun _ => 0) 2).2.2 0 = 65 ∧
    ((pmC9.InsertTuple (fun _ => 65) 2).1.GetTuple (pmC9.InsertTuple (fun _ => 65) 2).2
        (fun _ => 0) 2).2.2 1 = 65 := by
  obtain ⟨h1, h2⟩ := claim_C9 pmC9 (fun _ => 65) 2 2 (fun _ => 0)
    ⟨fun kp hm => absurd hm (List.not_mem_nil kp), fun pid pg h => Option.noConfusion h⟩
    (by decide) (by decide) (fun k => by show (65:Nat) < 256; decide) (by decide) (by decide)
  exact ⟨h1, h2 0 (by decide), h2 1 (by decide)⟩
